import Mathlib

/-!
Verification of the Daily Task Manager (src/script.js): a shallow embedding
of its task store, mutation operations, notification poller and date-key
formatter, together with theorems checking the specification's claims.
The ambient browser state (the current date, `Date.now()`, the value of a
time input, the result of `prompt`) is passed to each operation as an
explicit argument; local storage is the `Store` value threaded through.
-/

set_option maxHeartbeats 1000000

namespace TaskManager

/-- Task record as stored in local storage (the `newTask` object shape of
script.js lines 311-317). -/
structure Task where
  id : Nat
  text : String
  completed : Bool
  notifyEnabled : Bool
  notifyTime : Option String
deriving DecidableEq, Repr

/-- Whole persisted store: ordered mapping from DateKey strings
(YYYY-MM-DD) to that day's task list, mirroring the JSON object held under
the `dailyTasks` local-storage key (object key order = insertion order). -/
abbrev Store := List (String × List Task)

/-- Object lookup `allTasks[dateKey]` (first matching key). -/
def lookupDate : Store → String → Option (List Task)
  | [], _ => none
  | e :: rest, k => if e.1 = k then some e.2 else lookupDate rest k

/-- Property assignment `allTasks[dateKey] = l` for a key that is already
present: replaces the value at the first matching key and leaves every
other entry alone. -/
def setDate : Store → String → List Task → Store
  | [], _, _ => []
  | e :: rest, k, l => if e.1 = k then (k, l) :: rest else e :: setDate rest k l

/-- Property deletion `delete allTasks[dateKey]`. -/
def removeDate (s : Store) (k : String) : Store :=
  s.filter (fun e => !(decide (e.1 = k)))

/-- Assignment that creates the key at the end of the object if absent:
the `if (!allTasks[dateKey]) allTasks[dateKey] = []; ...push` pattern. -/
def setDateOrInsert (s : Store) (k : String) (l : List Task) : Store :=
  if (lookupDate s k).isSome then setDate s k l else s ++ [(k, l)]

/-- Defaulted lookup `allTasks[dateKey] || []`. -/
def getOrEmpty (s : Store) (k : String) : List Task :=
  (lookupDate s k).getD []

/-- Test of the regex `^\d{2}:\d{2}$` used by script.js (lines 498 and 534)
for time validation: exactly two digits, a colon, two digits. Note that it
checks only this shape; it does not range-check hours or minutes. -/
def isHHMM (s : String) : Bool :=
  match s.data with
  | [a, b, c, d, e] => a.isDigit && b.isDigit && c == ':' && d.isDigit && e.isDigit
  | _ => false

/-- Whitespace trim of `String.prototype.trim`, computed on the character
list so that concrete values reduce in the kernel. -/
def jsTrim (s : String) : String :=
  ⟨((s.data.dropWhile Char.isWhitespace).reverse.dropWhile Char.isWhitespace).reverse⟩

/-- Function `handleAddTask` (script.js lines 297-328), with the ambient
`Date.now()` timestamp, current date key and input text made explicit. -/
def handleAddTask (now : Nat) (dateKey text : String) (s : Store) : Store :=
  let taskText := jsTrim text
  if taskText ≠ "" then
    let list := getOrEmpty s dateKey
    let newTask : Task :=
      { id := now, text := taskText, completed := false,
        notifyEnabled := false, notifyTime := none }
    setDateOrInsert s dateKey (list ++ [newTask])
  else s

/-- Per-task callback of the `toggleTaskCompletion` map (lines 341-347). -/
def toggleCompletedMap (taskId : Nat) (t : Task) : Task :=
  if t.id = taskId then { t with completed := !t.completed } else t

/-- Function `toggleTaskCompletion` (lines 334-354): flips `completed` on
the matching task and saves only when some task matched (`taskChanged`). -/
def toggleTaskCompletion (dateKey : String) (taskId : Nat) (s : Store) : Store :=
  match lookupDate s dateKey with
  | none => s
  | some l =>
      let taskChanged := l.any (fun t => decide (t.id = taskId))
      let l2 := l.map (toggleCompletedMap taskId)
      if taskChanged then setDate s dateKey l2 else s

/-- Function `deleteTask` (lines 360-381) after the user confirms the
dialog (confirmation is a UI concern): filters out the matching id and
prunes the date key when the remaining list is empty. -/
def deleteTask (dateKey : String) (taskId : Nat) (s : Store) : Store :=
  match lookupDate s dateKey with
  | none => s
  | some l =>
      let l2 := l.filter (fun t => !(decide (t.id = taskId)))
      if l2 = [] then removeDate s dateKey else setDate s dateKey l2

/-- Per-task callback of the `saveTaskEdit` map (lines 457-466). -/
def saveEditMap (taskId : Nat) (newText : String) (t : Task) : Task :=
  if t.id = taskId then
    (if t.text ≠ newText then { t with text := newText } else t)
  else t

/-- Function `saveTaskEdit` (lines 433-474): rejects text that trims to
empty, otherwise replaces the matching task's text when it changed. -/
def saveTaskEdit (dateKey : String) (taskId : Nat) (text : String) (s : Store) : Store :=
  let newText := jsTrim text
  if newText = "" then s
  else
    match lookupDate s dateKey with
    | none => s
    | some l =>
        let taskUpdated := l.any (fun t => decide (t.id = taskId ∧ t.text ≠ newText))
        let l2 := l.map (saveEditMap taskId newText)
        if taskUpdated then setDate s dateKey l2 else s

/-- JavaScript falsiness of a stored `notifyTime` value (`null` or `""`). -/
def timeFalsy : Option String → Bool
  | none => true
  | some s => decide (s = "")

/-- Per-task body of the `toggleNotification` map callback (lines 487-513).
Returns the task to keep together with the net value the closed-over
`taskUpdated` flag receives for a matching task. `promptResult` is what
`prompt(...)` returned (`none` = dialog cancelled). -/
def toggleNotifyTask (promptResult : Option String) (t : Task) : Task × Bool :=
  let newState := !t.notifyEnabled
  if newState && timeFalsy t.notifyTime then
    match promptResult with
    | none => (t, false)
    | some newTime =>
        if newTime ≠ "" ∧ isHHMM newTime = false then (t, false)
        else if newTime = "" then (t, false)
        else ({ t with notifyEnabled := newState, notifyTime := some newTime }, true)
  else ({ t with notifyEnabled := newState, notifyTime := t.notifyTime }, true)

/-- Function `toggleNotification` (lines 481-520). -/
def toggleNotification (promptResult : Option String) (dateKey : String) (taskId : Nat)
    (s : Store) : Store :=
  match lookupDate s dateKey with
  | none => s
  | some l =>
      let l2 := l.map (fun t => if t.id = taskId then (toggleNotifyTask promptResult t).1 else t)
      let taskUpdated :=
        l.foldl (fun f t => if t.id = taskId then (toggleNotifyTask promptResult t).2 else f) false
      if taskUpdated then setDate s dateKey l2 else s

/-- Per-task callback of the `handleTimeChange` map (lines 543-551).
The comparison `task.notifyTime !== newTime` compares a string-or-null
with the (string) input value, so a null `notifyTime` always differs. -/
def timeChangeMap (newTime : String) (taskId : Nat) (t : Task) : Task :=
  if t.id = taskId then
    (if t.notifyTime ≠ some newTime then
      { t with notifyTime := if newTime = "" then none else some newTime }
    else t)
  else t

/-- Function `handleTimeChange` (lines 527-559). The Bool is true exactly
when the invalid-format alert fired (operation rejected); the Store is
what is persisted afterwards. -/
def handleTimeChange (newTime : String) (dateKey : String) (taskId : Nat)
    (s : Store) : Store × Bool :=
  if newTime ≠ "" ∧ isHHMM newTime = false then (s, true)
  else
    match lookupDate s dateKey with
    | none => (s, false)
    | some l =>
        let taskUpdated := l.any (fun t => decide (t.id = taskId ∧ t.notifyTime ≠ some newTime))
        let l2 := l.map (timeChangeMap newTime taskId)
        if taskUpdated then (setDate s dateKey l2, false) else (s, false)

/-- Per-task callback of the `markNotificationAsFired` map (lines 612-619). -/
def fireMap (taskId : Nat) (t : Task) : Task :=
  if t.id = taskId then { t with notifyEnabled := false } else t

/-- Function `markNotificationAsFired` (lines 606-626): disables the fired
notification in storage. -/
def markNotificationAsFired (todayKey : String) (taskId : Nat) (s : Store) : Store :=
  match lookupDate s todayKey with
  | none => s
  | some l =>
      let taskUpdated := l.any (fun t => decide (t.id = taskId))
      let l2 := l.map (fireMap taskId)
      if taskUpdated then setDate s todayKey l2 else s

/-- Firing guard of `checkNotifications` (lines 576-581):
`task.notifyEnabled && task.notifyTime === currentTime && !task.completed`.
The fourth conjunct `!task.notified` of the source is omitted because no
code path ever sets a `notified` field, so it is always undefined there
and the conjunct is always true. -/
def notifyDue (currentTime : String) (t : Task) : Bool :=
  t.notifyEnabled && decide (t.notifyTime = some currentTime) && !t.completed

/-- Function `checkNotifications` (lines 564-600): one poll tick. It walks
today's list as loaded at the start of the tick; each firing task produces
an alert (collected in order in the first component) followed by a
`markNotificationAsFired` read-modify-write against the evolving store. -/
def checkNotifications (currentTime todayKey : String) (s : Store) : List Task × Store :=
  match lookupDate s todayKey with
  | none => ([], s)
  | some l =>
      l.foldl
        (fun acc t =>
          if notifyDue currentTime t then
            (acc.1 ++ [t], markNotificationAsFired todayKey t.id acc.2)
          else acc)
        ([], s)

/-- Store-effect of one poll tick, walking a given task list: the shape the
`checkNotifications` fold takes on its second component. -/
def fireAll (currentTime todayKey : String) (l : List Task) (s : Store) : Store :=
  l.foldl
    (fun s2 t => if notifyDue currentTime t then markNotificationAsFired todayKey t.id s2 else s2)
    s

/-- Cumulative effect on a task of the `markNotificationAsFired` writes for
a set of fired task ids: disabled exactly when its id is among them. -/
def firedDisable (fired : List Nat) (x : Task) : Task :=
  if x.id ∈ fired then { x with notifyEnabled := false } else x

/-- Function `clearCompletedTasks` (lines 711-738) after the user confirms
the dialog: keeps only incomplete tasks, saving (and pruning an emptied
date key) only when something was removed. -/
def clearCompletedTasks (dateKey : String) (s : Store) : Store :=
  match lookupDate s dateKey with
  | none => s
  | some l =>
      let l2 := l.filter (fun t => !t.completed)
      if l2.length < l.length then
        (if l2 = [] then removeDate s dateKey else setDate s dateKey l2)
      else s

/-- Function `importPdfTask` (lines 848-882): exact-text dedupe against the
date's existing tasks, then append with default fields. -/
def importPdfTask (now : Nat) (dateKey taskText : String) (s : Store) : Store :=
  let list := getOrEmpty s dateKey
  if list.any (fun t => decide (t.text = taskText)) then s
  else
    setDateOrInsert s dateKey
      (list ++ [{ id := now, text := taskText, completed := false,
                  notifyEnabled := false, notifyTime := none }])

/-- Raw persisted task record before migration: `notifyEnabled` and
`notifyTime` may be absent or null; both are modelled as the outer `none`,
matching `??` which treats null and undefined alike. -/
structure RawTask where
  id : Nat
  text : String
  completed : Bool
  notifyEnabled : Option Bool
  notifyTime : Option (Option String)
deriving DecidableEq, Repr

/-- Migration spread `{...task, notifyEnabled: task.notifyEnabled ?? false,
notifyTime: task.notifyTime ?? null}` (script.js lines 91-95). -/
def migrateTask (r : RawTask) : Task :=
  { id := r.id, text := r.text, completed := r.completed,
    notifyEnabled := r.notifyEnabled.getD false,
    notifyTime := r.notifyTime.getD none }

/-- Value bound to a date key in a parsed persisted document: either an
array of raw task records, or any other parsed JSON value (a number,
string, object or null, as in the document `{"a":1}`) — a value with no
`.map` method. -/
inductive RawValue where
  | tasks (l : List RawTask)
  | nonArray
deriving DecidableEq

/-- What `localStorage.getItem` plus `JSON.parse` can yield for the store
key: no data, unparseable data, or a parsed document binding date keys to
arbitrary JSON values. -/
inductive PersistedData where
  | missing
  | corrupt
  | doc (raw : List (String × RawValue))

/-- The call `allTasks[dateKey].map(...)` of the migration loop: it
succeeds on an array value and throws a TypeError — modelled as `none` —
on any other value, which has no `.map` method. -/
def migrateValue : RawValue → Option (List Task)
  | .tasks l => some (l.map migrateTask)
  | .nonArray => none

/-- The migration loop of script.js lines 89-97, walking the parsed
document key by key in order; the first value without a `.map` method
throws, aborting the whole loop (and the enclosing load). -/
def migrateDoc : List (String × RawValue) → Option Store
  | [] => some []
  | e :: rest =>
      match migrateValue e.2 with
      | none => none
      | some l => (migrateDoc rest).map (fun s2 => (e.1, l) :: s2)

/-- Function `loadTasksFromLocalStorage` (lines 78-99). `none` models an
uncaught exception escaping the function: only `JSON.parse` is inside the
try/catch (lines 81-86), while the migration loop (lines 89-97) runs
outside it and throws on a parseable document that binds a date key to a
non-array value. On a normal return, the first component lists the
console-error lines emitted and the second is the returned store. -/
def loadTasksFromLocalStorage : PersistedData → Option (List String × Store)
  | .missing => some ([], [])
  | .corrupt => some (["Error parsing tasks from local storage:"], [])
  | .doc raw => (migrateDoc raw).map (fun s2 => ([], s2))

/-- Digit character for a value below ten, as decimal printing produces. -/
def digitChar (n : Nat) : Char := Char.ofNat (48 + n)

/-- Fuel-structured decimal digit list of a number, most significant digit
first — the digit sequence `String(n)` yields. Structural in the fuel so
that concrete keys compute by kernel reduction. -/
def natDigitsAux : Nat → Nat → List Char
  | 0, n => [digitChar (n % 10)]
  | fuel + 1, n =>
      if n < 10 then [digitChar n]
      else natDigitsAux fuel (n / 10) ++ [digitChar (n % 10)]

/-- Decimal digits of a number, most significant first. -/
def natToDigits (n : Nat) : List Char := natDigitsAux n n

/-- Decimal string of a number: the `String(year)` conversion. -/
def natToString (n : Nat) : String := ⟨natToDigits n⟩

/-- String method `padStart(2, "0")`. -/
def padStart2 (s : String) : String :=
  ⟨List.replicate (2 - s.data.length) '0' ++ s.data⟩

/-- Function `formatDate` (lines 49-54) on explicit local calendar
components: `year-MM-DD` with zero-padded two-digit month and day. -/
def formatDate (year month day : Nat) : String :=
  natToString year ++ "-" ++ padStart2 (natToString month) ++ "-" ++ padStart2 (natToString day)

/-- Calendar validity of date components as the spec uses the term. -/
def ValidDate (month day : Nat) : Prop :=
  1 ≤ month ∧ month ≤ 12 ∧ 1 ≤ day ∧ day ≤ 31

/-- The store invariant of spec §3: every DateKey present in the mapping
maps to a non-empty task list. -/
def StoreInv (s : Store) : Prop := ∀ e ∈ s, e.2 ≠ []

/-- Stores reachable from the empty store through the mutation operations
of the program (the poller's persisting write included). -/
inductive Reachable : Store → Prop where
  | empty : Reachable []
  | add (now : Nat) (d text : String) {s : Store} :
      Reachable s → Reachable (handleAddTask now d text s)
  | toggle (d : String) (i : Nat) {s : Store} :
      Reachable s → Reachable (toggleTaskCompletion d i s)
  | edit (d : String) (i : Nat) (text : String) {s : Store} :
      Reachable s → Reachable (saveTaskEdit d i text s)
  | del (d : String) (i : Nat) {s : Store} :
      Reachable s → Reachable (deleteTask d i s)
  | clear (d : String) {s : Store} :
      Reachable s → Reachable (clearCompletedTasks d s)
  | notify (p : Option String) (d : String) (i : Nat) {s : Store} :
      Reachable s → Reachable (toggleNotification p d i s)
  | time (nt d : String) (i : Nat) {s : Store} :
      Reachable s → Reachable ((handleTimeChange nt d i s).1)
  | imp (now : Nat) (d text : String) {s : Store} :
      Reachable s → Reachable (importPdfTask now d text s)
  | fire (d : String) (i : Nat) {s : Store} :
      Reachable s → Reachable (markNotificationAsFired d i s)

/-! Store access lemmas. -/

theorem lookupDate_setDate_self {s : Store} {k : String} {l0 : List Task}
    (h : lookupDate s k = some l0) (l : List Task) :
    lookupDate (setDate s k l) k = some l := by
  induction s with
  | nil => simp [lookupDate] at h
  | cons e rest ih =>
      by_cases hk : e.1 = k
      · simp [setDate, hk, lookupDate]
      · simp [lookupDate, hk] at h
        simp [setDate, hk, lookupDate, ih h]

theorem lookupDate_setDate_ne {s : Store} {k k2 : String} (hne : k2 ≠ k) (l : List Task) :
    lookupDate (setDate s k l) k2 = lookupDate s k2 := by
  induction s with
  | nil => simp [setDate]
  | cons e rest ih =>
      by_cases hk : e.1 = k
      · simp [setDate, hk, lookupDate, Ne.symm hne]
      · simp [setDate, hk, lookupDate, ih]

theorem setDate_self {s : Store} {k : String} {l : List Task}
    (h : lookupDate s k = some l) : setDate s k l = s := by
  induction s with
  | nil => simp [lookupDate] at h
  | cons e rest ih =>
      obtain ⟨e1, e2⟩ := e
      by_cases hk : e1 = k
      · subst hk
        simp [lookupDate] at h
        subst h
        simp [setDate]
      · simp [lookupDate, hk] at h
        simp [setDate, hk, ih h]

theorem setDate_setDate (s : Store) (k : String) (l l2 : List Task) :
    setDate (setDate s k l) k l2 = setDate s k l2 := by
  induction s with
  | nil => simp [setDate]
  | cons e rest ih =>
      by_cases hk : e.1 = k
      · simp [setDate, hk]
      · simp [setDate, hk, ih]

theorem lookupDate_removeDate_self (s : Store) (k : String) :
    lookupDate (removeDate s k) k = none := by
  induction s with
  | nil => simp [removeDate, lookupDate]
  | cons e rest ih =>
      by_cases hk : e.1 = k
      · simpa [removeDate, hk] using ih
      · simpa [removeDate, lookupDate, hk] using ih

theorem lookupDate_removeDate_ne {s : Store} {k k2 : String} (hne : k2 ≠ k) :
    lookupDate (removeDate s k) k2 = lookupDate s k2 := by
  induction s with
  | nil => simp [removeDate]
  | cons e rest ih =>
      by_cases hk : e.1 = k
      · have h2 : e.1 ≠ k2 := by rw [hk]; exact Ne.symm hne
        rw [show removeDate (e :: rest) k = removeDate rest k by simp [removeDate, hk]]
        rw [ih]
        simp [lookupDate, h2]
      · rw [show removeDate (e :: rest) k = e :: removeDate rest k by simp [removeDate, hk]]
        by_cases hk2 : e.1 = k2
        · simp [lookupDate, hk2]
        · simp [lookupDate, hk2, ih]

theorem lookupDate_append_single_self {s : Store} {k : String}
    (h : lookupDate s k = none) (l : List Task) :
    lookupDate (s ++ [(k, l)]) k = some l := by
  induction s with
  | nil => simp [lookupDate]
  | cons e rest ih =>
      by_cases hk : e.1 = k
      · simp [lookupDate, hk] at h
      · simp [lookupDate, hk] at h ⊢
        exact ih h

theorem lookupDate_setDateOrInsert_self (s : Store) (k : String) (l : List Task) :
    lookupDate (setDateOrInsert s k l) k = some l := by
  unfold setDateOrInsert
  cases h : lookupDate s k with
  | none => simpa [h] using lookupDate_append_single_self h l
  | some l0 => simpa [h] using lookupDate_setDate_self h l

theorem lookupDate_append_single_ne {k k2 : String} (hne : k2 ≠ k)
    (s : Store) (l : List Task) :
    lookupDate (s ++ [(k, l)]) k2 = lookupDate s k2 := by
  induction s with
  | nil => simp [lookupDate, Ne.symm hne]
  | cons e rest ih =>
      by_cases hk2 : e.1 = k2
      · simp [lookupDate, hk2]
      · simp [lookupDate, hk2, ih]

theorem lookupDate_setDateOrInsert_ne {s : Store} {k k2 : String} (hne : k2 ≠ k)
    (l : List Task) : lookupDate (setDateOrInsert s k l) k2 = lookupDate s k2 := by
  unfold setDateOrInsert
  cases h : lookupDate s k with
  | none => simpa [h] using lookupDate_append_single_ne hne s l
  | some l0 => simpa [h] using lookupDate_setDate_ne hne l

theorem lookupDate_mem {s : Store} {k : String} {l : List Task}
    (h : lookupDate s k = some l) : (k, l) ∈ s := by
  induction s with
  | nil => simp [lookupDate] at h
  | cons e rest ih =>
      obtain ⟨e1, e2⟩ := e
      by_cases hk : e1 = k
      · subst hk
        simp [lookupDate] at h
        subst h
        exact List.mem_cons_self _ _
      · simp [lookupDate, hk] at h
        exact List.mem_cons_of_mem _ (ih h)

/-! List helper lemmas about id-keyed filtering and mapping. -/

theorem filter_id_nil {l : List Task} {i : Nat} (h : ∀ x ∈ l, x.id ≠ i) :
    l.filter (fun x => decide (x.id = i)) = [] := by
  induction l with
  | nil => rfl
  | cons a rest ih =>
      have ha : a.id ≠ i := h a (List.mem_cons_self _ _)
      rw [List.filter_cons_of_neg (by simpa using ha)]
      exact ih (fun x hx => h x (List.mem_cons_of_mem _ hx))

theorem filter_id_single {l : List Task} {t : Task}
    (hnd : (l.map Task.id).Nodup) (ht : t ∈ l) :
    l.filter (fun x => decide (x.id = t.id)) = [t] := by
  induction l with
  | nil => cases ht
  | cons a rest ih =>
      simp only [List.map, List.nodup_cons] at hnd
      obtain ⟨hnotin, hnd2⟩ := hnd
      rcases List.mem_cons.mp ht with rfl | hmem
      · have hrest : rest.filter (fun x => decide (x.id = t.id)) = [] := by
          refine filter_id_nil (fun x hx hc => hnotin ?_)
          rw [← hc]
          exact List.mem_map_of_mem Task.id hx
        rw [List.filter_cons_of_pos (by simp)]
        rw [hrest]
      · have hne : a.id ≠ t.id := by
          intro hc
          exact hnotin (hc ▸ List.mem_map_of_mem Task.id hmem)
        rw [List.filter_cons_of_neg (by simpa using hne)]
        exact ih hnd2 hmem

theorem mem_of_filter_id_single {l : List Task} {i : Nat} {t : Task}
    (hf : l.filter (fun x => decide (x.id = i)) = [t]) : t ∈ l ∧ t.id = i := by
  have : t ∈ l.filter (fun x => decide (x.id = i)) := by
    rw [hf]; exact List.mem_cons_self _ _
  have h2 := List.mem_filter.mp this
  exact ⟨h2.1, by simpa using h2.2⟩

theorem filter_id_map_nil {l : List Task} {i : Nat} (g : Task → Task)
    (h : ∀ x ∈ l, x.id ≠ i) :
    (l.map (fun x => if x.id = i then g x else x)).filter (fun x => decide (x.id = i)) = [] := by
  refine filter_id_nil ?_
  intro b hb
  obtain ⟨x, hx, rfl⟩ := List.mem_map.mp hb
  rw [if_neg (h x hx)]
  exact h x hx

theorem filter_id_map_single {l : List Task} {i : Nat} {t : Task}
    (hf : l.filter (fun x => decide (x.id = i)) = [t])
    {g : Task → Task} (hg : (g t).id = t.id) :
    (l.map (fun x => if x.id = i then g x else x)).filter (fun x => decide (x.id = i))
      = [g t] := by
  have hti : t.id = i := (mem_of_filter_id_single hf).2
  induction l with
  | nil => simp at hf
  | cons a rest ih =>
      by_cases ha : a.id = i
      · rw [List.filter_cons_of_pos (by simpa using ha)] at hf
        obtain ⟨rfl, hrest⟩ := List.cons_eq_cons.mp hf
        have hnomatch : ∀ x ∈ rest, x.id ≠ i := by
          intro x hx hc
          have : x ∈ rest.filter (fun x => decide (x.id = i)) :=
            List.mem_filter.mpr ⟨hx, by simpa using hc⟩
          rw [hrest] at this
          cases this
        simp only [List.map_cons]
        rw [if_pos ha]
        rw [List.filter_cons_of_pos (by simp [hg, hti])]
        rw [filter_id_map_nil g hnomatch]
      · rw [List.filter_cons_of_neg (by simpa using ha)] at hf
        simp only [List.map_cons]
        rw [if_neg ha]
        rw [List.filter_cons_of_neg (by simpa using ha)]
        exact ih hf

theorem filter_id_map_comm {l : List Task} {i : Nat} (g : Task → Task)
    (hg : ∀ x, (g x).id = x.id) :
    (l.map g).filter (fun x => decide (x.id = i))
      = (l.filter (fun x => decide (x.id = i))).map g := by
  induction l with
  | nil => rfl
  | cons a rest ih =>
      by_cases ha : a.id = i
      · have hga : (g a).id = i := by rw [hg]; exact ha
        simp only [List.map_cons]
        rw [List.filter_cons_of_pos (by simpa using hga),
          List.filter_cons_of_pos (by simpa using ha), List.map_cons, ih]
      · have hga : ¬((g a).id = i) := by rw [hg]; exact ha
        simp only [List.map_cons]
        rw [List.filter_cons_of_neg (by simpa using hga),
          List.filter_cons_of_neg (by simpa using ha), ih]

theorem filter_swap (p q : Task → Bool) (l : List Task) :
    (l.filter p).filter q = (l.filter q).filter p := by
  rw [List.filter_filter, List.filter_filter]
  exact List.filter_congr (fun x _ => by rw [Bool.and_comm])

theorem foldl_flag_nil {l : List Task} {i : Nat} (hm : ∀ x ∈ l, x.id ≠ i)
    (f : Task → Bool) (acc : Bool) :
    l.foldl (fun a x => if x.id = i then f x else a) acc = acc := by
  induction l generalizing acc with
  | nil => rfl
  | cons a rest ih =>
      simp only [List.foldl_cons]
      rw [if_neg (hm a (List.mem_cons_self _ _))]
      exact ih (fun x hx => hm x (List.mem_cons_of_mem _ hx)) acc

theorem foldl_flag_single {l : List Task} {i : Nat} {t : Task}
    (hf : l.filter (fun x => decide (x.id = i)) = [t]) (f : Task → Bool) :
    l.foldl (fun a x => if x.id = i then f x else a) false = f t := by
  induction l with
  | nil => simp at hf
  | cons a rest ih =>
      by_cases ha : a.id = i
      · rw [List.filter_cons_of_pos (by simpa using ha)] at hf
        obtain ⟨rfl, hrest⟩ := List.cons_eq_cons.mp hf
        have hnomatch : ∀ x ∈ rest, x.id ≠ i := by
          intro x hx hc
          have : x ∈ rest.filter (fun x => decide (x.id = i)) :=
            List.mem_filter.mpr ⟨hx, by simpa using hc⟩
          rw [hrest] at this
          cases this
        simp only [List.foldl_cons]
        rw [if_pos ha]
        exact foldl_flag_nil hnomatch f (f a)
      · rw [List.filter_cons_of_neg (by simpa using ha)] at hf
        simp only [List.foldl_cons]
        rw [if_neg ha]
        exact ih hf

/-! Poller characterisation lemmas. -/

theorem checkFold_eq (time d : String) (l : List Task) :
    ∀ (a : List Task) (st : Store),
      l.foldl
        (fun acc t =>
          if notifyDue time t then
            (acc.1 ++ [t], markNotificationAsFired d t.id acc.2)
          else acc)
        (a, st)
      = (a ++ l.filter (notifyDue time), fireAll time d l st) := by
  induction l with
  | nil => intro a st; simp [fireAll]
  | cons h rest ih =>
      intro a st
      by_cases hh : notifyDue time h = true
      · rw [List.filter_cons_of_pos hh]
        simp only [List.foldl_cons]
        rw [if_pos hh, ih]
        rw [show fireAll time d (h :: rest) st
              = fireAll time d rest (markNotificationAsFired d h.id st) by
            simp [fireAll, hh]]
        simp
      · rw [List.filter_cons_of_neg (by simpa using hh)]
        simp only [List.foldl_cons]
        rw [if_neg hh, ih]
        rw [show fireAll time d (h :: rest) st = fireAll time d rest st by
            simp [fireAll, hh]]

theorem checkNotifications_eq_of_lookup {s : Store} {d : String} {l : List Task}
    (h : lookupDate s d = some l) (time : String) :
    checkNotifications time d s = (l.filter (notifyDue time), fireAll time d l s) := by
  unfold checkNotifications
  rw [h]
  simpa using checkFold_eq time d l [] s

theorem fireMap_id_of_no_match {l : List Task} {i : Nat}
    (h : l.any (fun t => decide (t.id = i)) = false) : l.map (fireMap i) = l := by
  induction l with
  | nil => rfl
  | cons a rest ih =>
      simp only [List.any_cons, Bool.or_eq_false_iff, decide_eq_false_iff_not] at h
      simp only [List.map_cons, fireMap]
      rw [if_neg h.1, ih (by simpa using h.2)]

theorem lookupDate_markFired (d : String) (i : Nat) (s : Store) :
    lookupDate (markNotificationAsFired d i s) d
      = (lookupDate s d).map (List.map (fireMap i)) := by
  unfold markNotificationAsFired
  cases h : lookupDate s d with
  | none => simp [h]
  | some l =>
      by_cases hany : l.any (fun t => decide (t.id = i)) = true
      · simp only [h, hany, if_true]
        simpa using lookupDate_setDate_self h (l.map (fireMap i))
      · have hf : l.any (fun t => decide (t.id = i)) = false := by
          simpa using hany
        simp only [h, hf, Bool.false_eq_true, if_false, Option.map_some']
        rw [fireMap_id_of_no_match hf]

theorem firedDisable_fireMap (i : Nat) (fired : List Nat) (x : Task) :
    firedDisable fired (fireMap i x) = firedDisable (i :: fired) x := by
  unfold firedDisable fireMap
  by_cases hx : x.id = i
  · rw [if_pos hx]
    by_cases hm : x.id ∈ fired
    · rw [if_pos (by simpa using hm), if_pos (by simp [hx])]
    · rw [if_neg (by simpa using hm), if_pos (by simp [hx])]
  · rw [if_neg hx]
    by_cases hm : x.id ∈ fired
    · rw [if_pos hm, if_pos (by simp [hm])]
    · rw [if_neg hm, if_neg (by simp [hx, hm])]

theorem firedDisable_nil (x : Task) : firedDisable [] x = x := by
  simp [firedDisable]

theorem firedDisable_id (fired : List Nat) (x : Task) :
    (firedDisable fired x).id = x.id := by
  unfold firedDisable
  by_cases hm : x.id ∈ fired
  · rw [if_pos hm]
  · rw [if_neg hm]

theorem lookupDate_fireAll (time d : String) (l : List Task) :
    ∀ s : Store,
      lookupDate (fireAll time d l s) d
        = (lookupDate s d).map
            (List.map (firedDisable ((l.filter (notifyDue time)).map Task.id))) := by
  induction l with
  | nil =>
      intro s
      rw [show fireAll time d [] s = s from rfl]
      cases lookupDate s d with
      | none => simp
      | some v =>
          simp only [Option.map_some', Option.some.injEq]
          exact ((List.map_congr_left (fun x _ => firedDisable_nil x)).trans
            (List.map_id v)).symm
  | cons h rest ih =>
      intro s
      by_cases hh : notifyDue time h = true
      · rw [show fireAll time d (h :: rest) s
              = fireAll time d rest (markNotificationAsFired d h.id s) by
            simp [fireAll, hh]]
        rw [ih, lookupDate_markFired]
        rw [List.filter_cons_of_pos hh]
        cases lookupDate s d with
        | none => simp
        | some l0 =>
            simp only [Option.map_some', List.map_map, List.map_cons, Option.some.injEq]
            apply List.map_congr_left
            intro x _
            exact firedDisable_fireMap h.id _ x
      · rw [show fireAll time d (h :: rest) s = fireAll time d rest s by
            simp [fireAll, hh]]
        rw [ih, List.filter_cons_of_neg (by simpa using hh)]

/-! Claim C1. -/

/-- C1: for every store containing, under today's DateKey, a task with
notifyEnabled=true, notifyTime equal to the current local HH:MM and
completed=false, one execution of the poller's check fires the alert for
that task exactly once and persists the task with notifyEnabled=false and
every other field unchanged; a second consecutive check at the same minute
fires no alert for that task. Task ids are assumed unique within today's
list, which is the spec's own Store invariant. -/
theorem checkNotifications_one_shot
    (s : Store) (time d : String) (t : Task)
    (hnd : ((getOrEmpty s d).map Task.id).Nodup)
    (ht : t ∈ getOrEmpty s d)
    (he : t.notifyEnabled = true) (htm : t.notifyTime = some time)
    (hc : t.completed = false) :
    (checkNotifications time d s).1.filter (fun x => decide (x.id = t.id)) = [t] ∧
    (getOrEmpty (checkNotifications time d s).2 d).filter (fun x => decide (x.id = t.id))
      = [{ t with notifyEnabled := false }] ∧
    (checkNotifications time d (checkNotifications time d s).2).1.filter
      (fun x => decide (x.id = t.id)) = [] := by
  obtain ⟨l0, hl⟩ : ∃ l0, lookupDate s d = some l0 := by
    cases h : lookupDate s d with
    | none =>
        rw [getOrEmpty, h] at ht
        cases ht
    | some l0 => exact ⟨l0, rfl⟩
  have hge : getOrEmpty s d = l0 := by rw [getOrEmpty, hl]; rfl
  rw [hge] at hnd ht
  have hdue : notifyDue time t = true := by simp [notifyDue, he, htm, hc]
  have hcheck := checkNotifications_eq_of_lookup hl time
  have hfil : l0.filter (fun x => decide (x.id = t.id)) = [t] := filter_id_single hnd ht
  have p1 : (checkNotifications time d s).1.filter (fun x => decide (x.id = t.id)) = [t] := by
    rw [hcheck]
    rw [filter_swap, hfil, List.filter_cons_of_pos hdue]
    rfl
  have hmem_f : t.id ∈ (l0.filter (notifyDue time)).map Task.id :=
    List.mem_map_of_mem Task.id (List.mem_filter.mpr ⟨ht, hdue⟩)
  have hlook2 : lookupDate (checkNotifications time d s).2 d
      = some (l0.map (firedDisable ((l0.filter (notifyDue time)).map Task.id))) := by
    rw [hcheck]
    simpa [hl] using lookupDate_fireAll time d l0 s
  have hcomm := filter_id_map_comm (l := l0) (i := t.id)
    (firedDisable ((l0.filter (notifyDue time)).map Task.id))
    (firedDisable_id ((l0.filter (notifyDue time)).map Task.id))
  have hdis : firedDisable ((l0.filter (notifyDue time)).map Task.id) t
      = { t with notifyEnabled := false } := by
    rw [firedDisable, if_pos hmem_f]
  have p2 : (getOrEmpty (checkNotifications time d s).2 d).filter
      (fun x => decide (x.id = t.id)) = [{ t with notifyEnabled := false }] := by
    rw [getOrEmpty, hlook2, Option.getD_some, hcomm, hfil, List.map_cons, List.map_nil, hdis]
  have p3 : (checkNotifications time d (checkNotifications time d s).2).1.filter
      (fun x => decide (x.id = t.id)) = [] := by
    rw [checkNotifications_eq_of_lookup hlook2 time]
    rw [filter_swap, hcomm, hfil, List.map_cons, List.map_nil, hdis]
    have hnd2 : notifyDue time { t with notifyEnabled := false } = false := by
      simp [notifyDue]
    rw [List.filter_cons_of_neg (by simp [hnd2]), List.filter_nil]
  exact ⟨p1, p2, p3⟩

/-- Closed witness for the poller one-shot theorem at a concrete store. -/
theorem checkNotifications_one_shot_witness :
    ((checkNotifications "09:00" "2025-04-14"
        [("2025-04-14", [⟨1, "Buy milk", false, true, some "09:00"⟩])]).1.filter
      (fun x => decide (x.id = 1)) = [⟨1, "Buy milk", false, true, some "09:00"⟩]) ∧
    ((getOrEmpty (checkNotifications "09:00" "2025-04-14"
        [("2025-04-14", [⟨1, "Buy milk", false, true, some "09:00"⟩])]).2
        "2025-04-14").filter (fun x => decide (x.id = 1))
      = [⟨1, "Buy milk", false, false, some "09:00"⟩]) ∧
    ((checkNotifications "09:00" "2025-04-14"
        (checkNotifications "09:00" "2025-04-14"
          [("2025-04-14", [⟨1, "Buy milk", false, true, some "09:00"⟩])]).2).1.filter
      (fun x => decide (x.id = 1)) = []) :=
  checkNotifications_one_shot
    [("2025-04-14", [⟨1, "Buy milk", false, true, some "09:00"⟩])]
    "09:00" "2025-04-14" ⟨1, "Buy milk", false, true, some "09:00"⟩
    (by decide) (by decide) rfl rfl rfl

/-! Claim C7. -/

theorem toggleCompletedMap_id (i : Nat) (x : Task) : (toggleCompletedMap i x).id = x.id := by
  unfold toggleCompletedMap
  by_cases hx : x.id = i
  · rw [if_pos hx]
  · rw [if_neg hx]

theorem toggleCompletedMap_invol (i : Nat) (x : Task) :
    toggleCompletedMap i (toggleCompletedMap i x) = x := by
  unfold toggleCompletedMap
  by_cases hx : x.id = i
  · rw [if_pos hx]
    simp only [if_pos hx]
    cases x
    simp
  · rw [if_neg hx, if_neg hx]

theorem any_id_map {l : List Task} {i : Nat} (g : Task → Task)
    (hg : ∀ x, (g x).id = x.id) :
    (l.map g).any (fun t => decide (t.id = i)) = l.any (fun t => decide (t.id = i)) := by
  induction l with
  | nil => rfl
  | cons a rest ih => simp only [List.map_cons, List.any_cons, hg, ih]

theorem toggleTaskCompletion_eq_of_lookup {s : Store} {d : String} {l : List Task}
    (hl : lookupDate s d = some l) (i : Nat)
    (h : l.any (fun t => decide (t.id = i)) = true) :
    toggleTaskCompletion d i s = setDate s d (l.map (toggleCompletedMap i)) := by
  unfold toggleTaskCompletion
  rw [hl]
  simp only [h, if_true]

/-- C7: toggleCompletion is an involution — for every store, date and task
id present in that date's list, applying it twice returns the original
store exactly, and a single application changes the list only by flipping
the completed flag of the matching task (the `toggleCompletedMap` of the
source map callback), leaving every other field and task identical. -/
theorem toggleTaskCompletion_involution (s : Store) (d : String) (i : Nat)
    (h : (getOrEmpty s d).any (fun t => decide (t.id = i)) = true) :
    toggleTaskCompletion d i (toggleTaskCompletion d i s) = s ∧
    getOrEmpty (toggleTaskCompletion d i s) d
      = (getOrEmpty s d).map (toggleCompletedMap i) := by
  obtain ⟨l0, hl⟩ : ∃ l0, lookupDate s d = some l0 := by
    cases hx : lookupDate s d with
    | none =>
        rw [getOrEmpty, hx] at h
        simp at h
    | some l0 => exact ⟨l0, rfl⟩
  have hge : getOrEmpty s d = l0 := by rw [getOrEmpty, hl]; rfl
  rw [hge] at h
  have h1 := toggleTaskCompletion_eq_of_lookup hl i h
  have hlook2 : lookupDate (toggleTaskCompletion d i s) d
      = some (l0.map (toggleCompletedMap i)) := by
    rw [h1]
    exact lookupDate_setDate_self hl _
  have hany2 : (l0.map (toggleCompletedMap i)).any (fun t => decide (t.id = i)) = true := by
    rw [any_id_map _ (toggleCompletedMap_id i)]
    exact h
  constructor
  · rw [toggleTaskCompletion_eq_of_lookup hlook2 i hany2, h1, setDate_setDate]
    have hmm : (l0.map (toggleCompletedMap i)).map (toggleCompletedMap i) = l0 := by
      rw [List.map_map]
      have hcongr : List.map (toggleCompletedMap i ∘ toggleCompletedMap i) l0
          = List.map id l0 :=
        List.map_congr_left (fun x _ => toggleCompletedMap_invol i x)
      rw [hcongr, List.map_id]
    rw [hmm, setDate_self hl]
  · rw [getOrEmpty, hlook2, Option.getD_some, hge]

/-- Closed witness for the involution theorem at a concrete store. -/
theorem toggleTaskCompletion_involution_witness :
    (toggleTaskCompletion "2025-04-14" 7
      (toggleTaskCompletion "2025-04-14" 7
        [("2025-04-14", [⟨7, "a", false, false, none⟩, ⟨8, "b", true, false, none⟩])])
      = [("2025-04-14", [⟨7, "a", false, false, none⟩, ⟨8, "b", true, false, none⟩])]) ∧
    (getOrEmpty (toggleTaskCompletion "2025-04-14" 7
        [("2025-04-14", [⟨7, "a", false, false, none⟩, ⟨8, "b", true, false, none⟩])])
        "2025-04-14"
      = [⟨7, "a", false, false, none⟩, ⟨8, "b", true, false, none⟩].map
          (toggleCompletedMap 7)) :=
  toggleTaskCompletion_involution
    [("2025-04-14", [⟨7, "a", false, false, none⟩, ⟨8, "b", true, false, none⟩])]
    "2025-04-14" 7 (by decide)

/-! Claim C6. -/

theorem clearCompletedTasks_eq_some {s : Store} {d : String} {l : List Task}
    (hl : lookupDate s d = some l) :
    clearCompletedTasks d s =
      (if (l.filter (fun t => !t.completed)).length < l.length then
        (if l.filter (fun t => !t.completed) = [] then removeDate s d
         else setDate s d (l.filter (fun t => !t.completed)))
       else s) := by
  unfold clearCompletedTasks
  rw [hl]

/-- C6: after clearCompleted(d) the (re-loaded) list for d consists of
exactly the previously incomplete tasks of d, unmodified and in order; if
none remain the DateKey d is absent from the store; every other DateKey is
unchanged. The store is assumed to satisfy the spec's Store invariant
(present keys have non-empty lists). -/
theorem clearCompletedTasks_spec (s : Store) (d : String) (hinv : StoreInv s) :
    getOrEmpty (clearCompletedTasks d s) d
      = (getOrEmpty s d).filter (fun t => !t.completed) ∧
    ((getOrEmpty s d).filter (fun t => !t.completed) = [] →
      lookupDate (clearCompletedTasks d s) d = none) ∧
    (∀ k, k ≠ d → lookupDate (clearCompletedTasks d s) k = lookupDate s k) := by
  cases hl : lookupDate s d with
  | none =>
      have heq : clearCompletedTasks d s = s := by
        unfold clearCompletedTasks
        rw [hl]
      rw [heq]
      refine ⟨?_, fun _ => hl, fun k _ => rfl⟩
      rw [getOrEmpty, hl]
      rfl
  | some l =>
      have hge : getOrEmpty s d = l := by rw [getOrEmpty, hl]; rfl
      have hlne : l ≠ [] := hinv (d, l) (lookupDate_mem hl)
      rw [hge]
      by_cases hch : (l.filter (fun t => !t.completed)).length < l.length
      · by_cases hem : l.filter (fun t => !t.completed) = []
        · have heq : clearCompletedTasks d s = removeDate s d := by
            rw [clearCompletedTasks_eq_some hl, if_pos hch, if_pos hem]
          rw [heq]
          refine ⟨?_, fun _ => lookupDate_removeDate_self s d, ?_⟩
          · rw [getOrEmpty, lookupDate_removeDate_self, hem]
            rfl
          · intro k hk
            exact lookupDate_removeDate_ne hk
        · have heq : clearCompletedTasks d s
              = setDate s d (l.filter (fun t => !t.completed)) := by
            rw [clearCompletedTasks_eq_some hl, if_pos hch, if_neg hem]
          rw [heq]
          refine ⟨?_, fun hemp => absurd hemp hem, ?_⟩
          · rw [getOrEmpty, lookupDate_setDate_self hl]
            rfl
          · intro k hk
            exact lookupDate_setDate_ne hk _
      · have hfeq : l.filter (fun t => !t.completed) = l :=
          (List.filter_sublist l).eq_of_length
            (le_antisymm (List.filter_sublist l).length_le (not_lt.mp hch))
        have heq : clearCompletedTasks d s = s := by
          rw [clearCompletedTasks_eq_some hl, if_neg hch]
        rw [heq, hfeq]
        refine ⟨hge, fun hemp => absurd (hfeq ▸ hemp) hlne, fun k _ => rfl⟩

/-- Closed witness for the clear-completed theorem at a concrete store. -/
theorem clearCompletedTasks_spec_witness :
    (getOrEmpty (clearCompletedTasks "2025-04-14"
        [("2025-04-14", [⟨1, "a", true, false, none⟩, ⟨2, "b", false, false, none⟩]),
         ("2025-04-15", [⟨3, "c", true, false, none⟩])])
        "2025-04-14"
      = [⟨1, "a", true, false, none⟩, ⟨2, "b", false, false, none⟩].filter
          (fun t => !t.completed)) ∧
    (([⟨1, "a", true, false, none⟩, ⟨2, "b", false, false, none⟩] :
        List Task).filter (fun t => !t.completed) = [] →
      lookupDate (clearCompletedTasks "2025-04-14"
        [("2025-04-14", [⟨1, "a", true, false, none⟩, ⟨2, "b", false, false, none⟩]),
         ("2025-04-15", [⟨3, "c", true, false, none⟩])])
        "2025-04-14" = none) ∧
    (∀ k, k ≠ "2025-04-14" →
      lookupDate (clearCompletedTasks "2025-04-14"
        [("2025-04-14", [⟨1, "a", true, false, none⟩, ⟨2, "b", false, false, none⟩]),
         ("2025-04-15", [⟨3, "c", true, false, none⟩])]) k
      = lookupDate
        [("2025-04-14", [⟨1, "a", true, false, none⟩, ⟨2, "b", false, false, none⟩]),
         ("2025-04-15", [⟨3, "c", true, false, none⟩])] k) := by
  have h := clearCompletedTasks_spec
    [("2025-04-14", [⟨1, "a", true, false, none⟩, ⟨2, "b", false, false, none⟩]),
     ("2025-04-15", [⟨3, "c", true, false, none⟩])]
    "2025-04-14" (by unfold StoreInv; decide)
  exact ⟨h.1, h.2.1, h.2.2⟩

/-! Generic single-match map lemma. -/

theorem filter_map_single {l : List Task} {i : Nat} {t : Task} {F : Task → Task}
    (hf : l.filter (fun x => decide (x.id = i)) = [t])
    (hFne : ∀ x, x.id ≠ i → F x = x)
    (hFid : (F t).id = t.id) :
    (l.map F).filter (fun x => decide (x.id = i)) = [F t] := by
  have hti : t.id = i := (mem_of_filter_id_single hf).2
  induction l with
  | nil => simp at hf
  | cons a rest ih =>
      by_cases ha : a.id = i
      · rw [List.filter_cons_of_pos (by simpa using ha)] at hf
        obtain ⟨rfl, hrest⟩ := List.cons_eq_cons.mp hf
        have hnomatch : ∀ x ∈ rest, x.id ≠ i := by
          intro x hx hc
          have : x ∈ rest.filter (fun x => decide (x.id = i)) :=
            List.mem_filter.mpr ⟨hx, by simpa using hc⟩
          rw [hrest] at this
          cases this
        have htail : (rest.map F).filter (fun x => decide (x.id = i)) = [] := by
          refine filter_id_nil ?_
          intro y hy
          obtain ⟨x, hx, rfl⟩ := List.mem_map.mp hy
          rw [hFne x (hnomatch x hx)]
          exact hnomatch x hx
        simp only [List.map_cons]
        rw [List.filter_cons_of_pos (by simpa using (hFid.trans hti)), htail]
      · rw [List.filter_cons_of_neg (by simpa using ha)] at hf
        simp only [List.map_cons]
        rw [hFne a ha, List.filter_cons_of_neg (by simpa using ha)]
        exact ih hf

/-! Claim C5. -/

theorem handleAddTask_eq_of_ne {text : String} (h : jsTrim text ≠ "") (now : Nat)
    (d : String) (s : Store) :
    handleAddTask now d text s
      = setDateOrInsert s d (getOrEmpty s d ++
          [{ id := now, text := jsTrim text, completed := false,
             notifyEnabled := false, notifyTime := none }]) := by
  unfold handleAddTask
  simp only [if_pos h]

/-- C5 (amended): addTask is a no-op when the text trims to empty;
otherwise the date's list (created if absent) becomes the previous list
with one task appended carrying the creation timestamp as id, the trimmed
text, completed=false, notifyEnabled=false and notifyTime=null — and that
id is unique in the list provided the timestamp does not collide with an
existing id (`Date.now()` collisions are possible, see the
counterexample). -/
theorem handleAddTask_spec (s : Store) (d text : String) (now : Nat) :
    (jsTrim text = "" → handleAddTask now d text s = s) ∧
    (jsTrim text ≠ "" →
      getOrEmpty (handleAddTask now d text s) d
        = getOrEmpty s d ++
            [{ id := now, text := jsTrim text, completed := false,
               notifyEnabled := false, notifyTime := none }] ∧
      (now ∉ (getOrEmpty s d).map Task.id →
        ((getOrEmpty (handleAddTask now d text s) d).filter
          (fun x => decide (x.id = now))).length = 1)) := by
  constructor
  · intro h
    unfold handleAddTask
    simp [h]
  · intro h
    have heq := handleAddTask_eq_of_ne h now d s
    have hlook : lookupDate (handleAddTask now d text s) d
        = some (getOrEmpty s d ++
            [{ id := now, text := jsTrim text, completed := false,
               notifyEnabled := false, notifyTime := none }]) := by
      rw [heq]
      exact lookupDate_setDateOrInsert_self s d _
    have hget : getOrEmpty (handleAddTask now d text s) d
        = getOrEmpty s d ++
            [{ id := now, text := jsTrim text, completed := false,
               notifyEnabled := false, notifyTime := none }] := by
      rw [getOrEmpty, hlook, Option.getD_some]
    refine ⟨hget, ?_⟩
    intro hnotin
    rw [hget, List.filter_append]
    have h1 : (getOrEmpty s d).filter (fun x => decide (x.id = now)) = [] :=
      filter_id_nil (fun x hx hc => hnotin (hc ▸ List.mem_map_of_mem Task.id hx))
    rw [h1]
    simp

/-- C5 counterexample: with a task of id 100 already stored under the date,
an add whose `Date.now()` value is also 100 (a same-millisecond collision)
appends a task whose id is not fresh — the list then holds two tasks with
id 100, refuting the unconditional fresh-unique-id part of the claim. -/
theorem handleAddTask_id_not_fresh :
    ((getOrEmpty
        (handleAddTask 100 "2025-04-14" "b"
          [("2025-04-14", [⟨100, "a", false, false, none⟩])])
        "2025-04-14").filter (fun x => decide (x.id = 100))).length = 2 := by
  decide

/-- Closed witness for the addTask theorem at concrete inputs. -/
theorem handleAddTask_spec_witness :
    (getOrEmpty (handleAddTask 5 "2025-04-14" " Buy milk " []) "2025-04-14"
      = getOrEmpty ([] : Store) "2025-04-14" ++
          [{ id := 5, text := jsTrim " Buy milk ", completed := false,
             notifyEnabled := false, notifyTime := none }]) ∧
    ((getOrEmpty (handleAddTask 5 "2025-04-14" " Buy milk " []) "2025-04-14").filter
      (fun x => decide (x.id = 5))).length = 1 ∧
    handleAddTask 9 "2025-04-14" "  " [] = [] := by
  have h := handleAddTask_spec [] "2025-04-14" " Buy milk " 5
  have h2 := (h.2 (by decide))
  exact ⟨h2.1, h2.2 (by decide),
    (handleAddTask_spec [] "2025-04-14" "  " 9).1 (by decide)⟩

/-! Claim C2. -/

theorem handleTimeChange_empty_no_error (s : Store) (d : String) (i : Nat) :
    (handleTimeChange "" d i s).2 = false := by
  unfold handleTimeChange
  rw [if_neg (by simp)]
  cases hl : lookupDate s d with
  | none => rfl
  | some l =>
      dsimp only
      split
      · rfl
      · rfl

theorem handleTimeChange_empty_single {s : Store} {d : String} {i : Nat} {t : Task}
    (hf : (getOrEmpty s d).filter (fun x => decide (x.id = i)) = [t])
    (hne : t.notifyTime ≠ some "") :
    (getOrEmpty (handleTimeChange "" d i s).1 d).filter (fun x => decide (x.id = i))
      = [{ t with notifyTime := none }] := by
  obtain ⟨hmem, hti⟩ := mem_of_filter_id_single hf
  obtain ⟨l0, hl⟩ : ∃ l0, lookupDate s d = some l0 := by
    cases hx : lookupDate s d with
    | none =>
        rw [getOrEmpty, hx] at hf
        simp at hf
    | some l0 => exact ⟨l0, rfl⟩
  have hge : getOrEmpty s d = l0 := by rw [getOrEmpty, hl]; rfl
  rw [hge] at hf hmem
  have hupd : l0.any (fun x => decide (x.id = i ∧ x.notifyTime ≠ some "")) = true :=
    List.any_eq_true.mpr ⟨t, hmem, by simp [hti, hne]⟩
  have heq : (handleTimeChange "" d i s).1 = setDate s d (l0.map (timeChangeMap "" i)) := by
    unfold handleTimeChange
    rw [if_neg (by simp), hl]
    dsimp only
    rw [if_pos hupd]
  have hget : getOrEmpty (handleTimeChange "" d i s).1 d = l0.map (timeChangeMap "" i) := by
    rw [heq, getOrEmpty, lookupDate_setDate_self hl, Option.getD_some]
  have hFne : ∀ x : Task, x.id ≠ i → timeChangeMap "" i x = x := by
    intro x hx
    unfold timeChangeMap
    rw [if_neg hx]
  have hFt : timeChangeMap "" i t = { t with notifyTime := none } := by
    unfold timeChangeMap
    rw [if_pos hti, if_pos hne, if_pos rfl]
  have hFid : (timeChangeMap "" i t).id = t.id := by rw [hFt]
  rw [hget, filter_map_single hf hFne hFid, hFt]

/-- C2 (amended): setNotificationTime validates only the two-digit
HH:MM shape of the source regex `^\d{2}:\d{2}$`: every non-empty string
failing that shape (in particular "9:00" with its missing leading zero) is
rejected — an error is signalled and the whole store, the targeted task's
prior notifyTime included, is left unchanged — while an empty string is
accepted without error and normalises the matching task's notifyTime to
null. Shape-conforming strings are accepted even when they are not valid
24-hour times (see the counterexample). -/
theorem handleTimeChange_spec (s : Store) (d : String) (i : Nat) (nt : String) :
    (nt ≠ "" → isHHMM nt = false → handleTimeChange nt d i s = (s, true)) ∧
    ((handleTimeChange "" d i s).2 = false) ∧
    (∀ t : Task, (getOrEmpty s d).filter (fun x => decide (x.id = i)) = [t] →
      t.notifyTime ≠ some "" →
      (getOrEmpty (handleTimeChange "" d i s).1 d).filter (fun x => decide (x.id = i))
        = [{ t with notifyTime := none }]) := by
  refine ⟨?_, handleTimeChange_empty_no_error s d i,
    fun t hf hne => handleTimeChange_empty_single hf hne⟩
  intro h1 h2
  unfold handleTimeChange
  rw [if_pos ⟨h1, h2⟩]

/-- C2 counterexample: "99:99" is not a valid 24-hour HH:MM time, yet
setNotificationTime accepts it — no error is signalled and the store is
mutated, storing "99:99" as the task's notifyTime. -/
theorem handleTimeChange_accepts_invalid_time :
    (handleTimeChange "99:99" "2025-04-14" 1
        [("2025-04-14", [⟨1, "a", false, true, some "08:00"⟩])]).2 = false ∧
    (handleTimeChange "99:99" "2025-04-14" 1
        [("2025-04-14", [⟨1, "a", false, true, some "08:00"⟩])]).1
      = [("2025-04-14", [⟨1, "a", false, true, some "99:99"⟩])] := by
  constructor
  · decide
  · decide

/-- Closed witness for the setNotificationTime theorem at concrete inputs. -/
theorem handleTimeChange_spec_witness :
    (handleTimeChange "9:00" "2025-04-14" 1
        [("2025-04-14", [⟨1, "a", false, true, some "08:00"⟩])]
      = ([("2025-04-14", [⟨1, "a", false, true, some "08:00"⟩])], true)) ∧
    ((getOrEmpty (handleTimeChange "" "2025-04-14" 1
        [("2025-04-14", [⟨1, "a", false, true, some "08:00"⟩])]).1
        "2025-04-14").filter (fun x => decide (x.id = 1))
      = [⟨1, "a", false, true, none⟩]) := by
  have h := handleTimeChange_spec
    [("2025-04-14", [⟨1, "a", false, true, some "08:00"⟩])] "2025-04-14" 1 "9:00"
  exact ⟨h.1 (by decide) (by decide),
    h.2.2 ⟨1, "a", false, true, some "08:00"⟩ (by decide) (by decide)⟩

/-! Claim C4. -/

theorem migrateDoc_throws {raw : List (String × RawValue)}
    (h : ∃ e ∈ raw, e.2 = RawValue.nonArray) : migrateDoc raw = none := by
  induction raw with
  | nil =>
      obtain ⟨e, he, _⟩ := h
      cases he
  | cons a rest ih =>
      obtain ⟨e, he, hv⟩ := h
      rcases List.mem_cons.mp he with rfl | hm
      · unfold migrateDoc
        rw [hv]
        rfl
      · unfold migrateDoc
        cases hav : migrateValue a.2 with
        | none => rfl
        | some l =>
            rw [ih ⟨e, hm, hv⟩]
            rfl

theorem migrateDoc_tasks (raw : List (String × List RawTask)) :
    migrateDoc (raw.map (fun e => (e.1, RawValue.tasks e.2)))
      = some (raw.map (fun e => (e.1, e.2.map migrateTask))) := by
  induction raw with
  | nil => rfl
  | cons a rest ih =>
      simp only [List.map_cons]
      unfold migrateDoc
      rw [show migrateValue (RawValue.tasks a.2) = some (a.2.map migrateTask) from rfl, ih]
      rfl

/-- C4 (amended): load does not throw on missing persisted data (it
returns the empty mapping, logging nothing) nor on unparseable data (it
logs and returns the empty mapping); but because the notify-field
migration loop runs outside the try/catch, a parseable document binding
any date key to a non-array value makes load throw an uncaught TypeError;
a parsed document all of whose values are task arrays is returned without
throwing, with the migration applied to every task — a missing
notifyEnabled becomes false, a missing notifyTime becomes null, and all
present fields are preserved. -/
theorem loadTasksFromLocalStorage_spec :
    loadTasksFromLocalStorage .missing = some ([], []) ∧
    loadTasksFromLocalStorage .corrupt
      = some (["Error parsing tasks from local storage:"], []) ∧
    (∀ raw, (∃ e ∈ raw, e.2 = RawValue.nonArray) →
      loadTasksFromLocalStorage (.doc raw) = none) ∧
    (∀ raw : List (String × List RawTask),
      loadTasksFromLocalStorage (.doc (raw.map (fun e => (e.1, RawValue.tasks e.2))))
        = some ([], raw.map (fun e => (e.1, e.2.map migrateTask)))) ∧
    (∀ r : RawTask,
      (r.notifyEnabled = none → (migrateTask r).notifyEnabled = false) ∧
      (r.notifyTime = none → (migrateTask r).notifyTime = none) ∧
      (∀ b, r.notifyEnabled = some b → (migrateTask r).notifyEnabled = b) ∧
      (∀ ot, r.notifyTime = some ot → (migrateTask r).notifyTime = ot) ∧
      (migrateTask r).id = r.id ∧ (migrateTask r).text = r.text ∧
      (migrateTask r).completed = r.completed) := by
  refine ⟨rfl, rfl, ?_, ?_, fun r => ?_⟩
  · intro raw h
    show (migrateDoc raw).map (fun s2 => (([] : List String), s2)) = none
    rw [migrateDoc_throws h]
    rfl
  · intro raw
    show (migrateDoc (raw.map (fun e => (e.1, RawValue.tasks e.2)))).map
        (fun s2 => (([] : List String), s2))
      = some ([], raw.map (fun e => (e.1, e.2.map migrateTask)))
    rw [migrateDoc_tasks raw]
    rfl
  · refine ⟨?_, ?_, ?_, ?_, rfl, rfl, rfl⟩
    · intro h
      simp [migrateTask, h]
    · intro h
      simp [migrateTask, h]
    · intro b h
      simp [migrateTask, h]
    · intro ot h
      simp [migrateTask, h]

/-- C4 counterexample: a persisted document that parses but binds a date
key to a non-array value — as `{"a":1}` does — makes load throw (the
migration loop's `allTasks[dateKey].map` is outside the try/catch)
instead of returning a store, refuting the claim that load never throws
and returns a migrated document for every successfully parsed one. -/
theorem loadTasksFromLocalStorage_throws :
    loadTasksFromLocalStorage (.doc [("a", RawValue.nonArray)]) = none := rfl

/-- Closed witness for the load theorem: the throwing document, a
well-shaped legacy document, and the field defaults on its record. -/
theorem loadTasksFromLocalStorage_spec_witness :
    loadTasksFromLocalStorage (.doc [("2025-04-14", RawValue.nonArray)]) = none ∧
    loadTasksFromLocalStorage
        (.doc [("2025-04-14", RawValue.tasks [⟨3, "old", true, none, none⟩])])
      = some ([], [("2025-04-14", [⟨3, "old", true, none, none⟩].map migrateTask)]) ∧
    (migrateTask ⟨3, "old", true, none, none⟩).notifyEnabled = false ∧
    (migrateTask ⟨3, "old", true, none, none⟩).notifyTime = none := by
  have h := loadTasksFromLocalStorage_spec
  have h5 := h.2.2.2.2 ⟨3, "old", true, none, none⟩
  refine ⟨h.2.2.1 [("2025-04-14", RawValue.nonArray)]
      ⟨("2025-04-14", RawValue.nonArray), List.mem_cons_self _ _, rfl⟩,
    ?_, h5.1 rfl, h5.2.1 rfl⟩
  exact h.2.2.2.1 [("2025-04-14", [⟨3, "old", true, none, none⟩])]

/-! Claim C10. -/

theorem checkNotifications_alerts_due (time d : String) (s : Store) :
    ∀ x ∈ (checkNotifications time d s).1, notifyDue time x = true := by
  cases hl : lookupDate s d with
  | none =>
      have : checkNotifications time d s = ([], s) := by
        unfold checkNotifications
        rw [hl]
      rw [this]
      intro x hx
      cases hx
  | some l =>
      rw [checkNotifications_eq_of_lookup hl]
      intro x hx
      exact List.of_mem_filter hx

/-- C10 (implicit): the state notifyEnabled=true with notifyTime=null is
reachable — setNotificationTime with the empty string on an enabled task
nulls the time while keeping the task enabled — and the poller never
fires an alert for a task whose notifyTime is null, on any tick over any
store. -/
theorem enabled_null_time_never_fires (s : Store) (d : String) (i : Nat) (t : Task)
    (hf : (getOrEmpty s d).filter (fun x => decide (x.id = i)) = [t])
    (he : t.notifyEnabled = true) (hne : t.notifyTime ≠ some "") :
    ((getOrEmpty (handleTimeChange "" d i s).1 d).filter (fun x => decide (x.id = i))
      = [{ t with notifyTime := none }] ∧
     ({ t with notifyTime := none } : Task).notifyEnabled = true) ∧
    (∀ (time d2 : String) (s2 : Store),
      ∀ x ∈ (checkNotifications time d2 s2).1, x.notifyTime ≠ none) := by
  refine ⟨⟨handleTimeChange_empty_single hf hne, by simp [he]⟩, ?_⟩
  intro time d2 s2 x hx hc
  have hdue := checkNotifications_alerts_due time d2 s2 x hx
  rw [notifyDue, hc] at hdue
  simp at hdue

/-- Closed witness for the null-time theorem at concrete inputs. -/
theorem enabled_null_time_never_fires_witness :
    (((getOrEmpty (handleTimeChange "" "2025-04-14" 1
        [("2025-04-14", [⟨1, "a", false, true, some "09:00"⟩])]).1
        "2025-04-14").filter (fun x => decide (x.id = 1))
      = [⟨1, "a", false, true, none⟩]) ∧
     (⟨1, "a", false, true, none⟩ : Task).notifyEnabled = true) ∧
    (∀ (time d2 : String) (s2 : Store),
      ∀ x ∈ (checkNotifications time d2 s2).1, x.notifyTime ≠ none) :=
  enabled_null_time_never_fires
    [("2025-04-14", [⟨1, "a", false, true, some "09:00"⟩])]
    "2025-04-14" 1 ⟨1, "a", false, true, some "09:00"⟩
    (by decide) rfl (by decide)

/-! Claim C9. -/

theorem toggleNotifyTask_fst_id (p : Option String) (t : Task) :
    ((toggleNotifyTask p t).1).id = t.id := by
  unfold toggleNotifyTask
  by_cases h : (!t.notifyEnabled && timeFalsy t.notifyTime) = true
  · simp only [h, if_true]
    cases p with
    | none => rfl
    | some str =>
        by_cases h1 : str ≠ "" ∧ isHHMM str = false
        · simp only [if_pos h1]
        · simp only [if_neg h1]
          by_cases h2 : str = ""
          · simp only [if_pos h2]
          · simp only [if_neg h2]
  · simp only [Bool.not_eq_true] at h
    simp only [h, Bool.false_eq_true, if_false]

theorem toggleNotifyTask_of_enabled {t : Task} (he : t.notifyEnabled = true)
    (p : Option String) :
    toggleNotifyTask p t = ({ t with notifyEnabled := false }, true) := by
  unfold toggleNotifyTask
  rw [he]
  rfl

theorem toggleNotifyTask_of_disabled_time {t : Task} (he : t.notifyEnabled = false)
    {x : String} (ht : t.notifyTime = some x) (hx : x ≠ "") (p : Option String) :
    toggleNotifyTask p t = ({ t with notifyEnabled := true, notifyTime := some x }, true) := by
  unfold toggleNotifyTask
  rw [he, ht]
  simp [timeFalsy, hx]

theorem toggleNotifyTask_abort {t : Task} (he : t.notifyEnabled = false)
    (ht : t.notifyTime = none) {p : Option String}
    (hp : ∀ str, p = some str → str = "" ∨ isHHMM str = false) :
    toggleNotifyTask p t = (t, false) := by
  unfold toggleNotifyTask
  rw [he, ht]
  cases p with
  | none => rfl
  | some str =>
      rcases hp str rfl with h | h
      · subst h
        simp [timeFalsy]
      · by_cases hs : str = ""
        · subst hs
          simp [timeFalsy]
        · simp [timeFalsy, hs, h]

theorem toggleNotifyTask_success {t : Task} (he : t.notifyEnabled = false)
    (ht : t.notifyTime = none) {str : String} (hs : str ≠ "") (hv : isHHMM str = true) :
    toggleNotifyTask (some str) t
      = ({ t with notifyEnabled := true, notifyTime := some str }, true) := by
  unfold toggleNotifyTask
  rw [he, ht]
  simp [timeFalsy, hs, hv]

theorem toggleNotification_eq_of_lookup {s : Store} {d : String} {l : List Task}
    (hl : lookupDate s d = some l) (p : Option String) (i : Nat) :
    toggleNotification p d i s =
      (if l.foldl (fun f t => if t.id = i then (toggleNotifyTask p t).2 else f) false
       then setDate s d (l.map (fun t => if t.id = i then (toggleNotifyTask p t).1 else t))
       else s) := by
  unfold toggleNotification
  rw [hl]

/-- C9 (amended): setNotificationEnabled (toggleNotification) — when
enabling a task with no stored time, the prompt must supply a time
matching the source's two-digit HH:MM shape check: the toggle aborts,
leaving the whole store unchanged, whenever the prompt is cancelled,
empty, or fails that shape check, and proceeds whenever the supplied time
conforms to the shape — even when it is not a valid 24-hour time (see the
counterexample); disabling sets notifyEnabled to false while leaving
notifyTime intact, so a subsequent re-enable restores the task exactly.
The matching task is assumed unique in the date's list (the spec's
id-uniqueness invariant). -/
theorem toggleNotification_spec (s : Store) (d : String) (i : Nat) (t : Task)
    (p : Option String)
    (hf : (getOrEmpty s d).filter (fun x => decide (x.id = i)) = [t]) :
    (t.notifyEnabled = false → t.notifyTime = none →
      (∀ str, p = some str → str = "" ∨ isHHMM str = false) →
      toggleNotification p d i s = s) ∧
    (∀ str, t.notifyEnabled = false → t.notifyTime = none → p = some str → str ≠ "" →
      isHHMM str = true →
      (getOrEmpty (toggleNotification p d i s) d).filter (fun x => decide (x.id = i))
        = [{ t with notifyEnabled := true, notifyTime := some str }]) ∧
    (t.notifyEnabled = true →
      ((getOrEmpty (toggleNotification p d i s) d).filter (fun x => decide (x.id = i))
        = [{ t with notifyEnabled := false }] ∧
      (∀ (p2 : Option String) (x : String), t.notifyTime = some x → x ≠ "" →
        (getOrEmpty (toggleNotification p2 d i (toggleNotification p d i s)) d).filter
          (fun x => decide (x.id = i)) = [t]))) := by
  obtain ⟨hmem, hti⟩ := mem_of_filter_id_single hf
  obtain ⟨l0, hl⟩ : ∃ l0, lookupDate s d = some l0 := by
    cases hx : lookupDate s d with
    | none =>
        rw [getOrEmpty, hx] at hf
        simp at hf
    | some l0 => exact ⟨l0, rfl⟩
  have hge : getOrEmpty s d = l0 := by rw [getOrEmpty, hl]; rfl
  rw [hge] at hf hmem
  have hFne : ∀ (q : Option String) (x : Task), x.id ≠ i →
      (fun t => if t.id = i then (toggleNotifyTask q t).1 else t) x = x := by
    intro q x hx
    exact if_neg hx
  have hFid : ∀ q : Option String,
      ((fun t => if t.id = i then (toggleNotifyTask q t).1 else t) t).id = t.id := by
    intro q
    show (if t.id = i then (toggleNotifyTask q t).1 else t).id = t.id
    rw [if_pos hti]
    exact toggleNotifyTask_fst_id q t
  refine ⟨?_, ?_, ?_⟩
  · intro he ht hp
    have hval := toggleNotifyTask_abort he ht hp
    have hflag := foldl_flag_single hf (fun x => (toggleNotifyTask p x).2)
    rw [hval] at hflag
    rw [toggleNotification_eq_of_lookup hl p i, hflag]
    simp
  · intro str he ht hpstr hs hv
    subst hpstr
    have hval := toggleNotifyTask_success he ht hs hv
    have hflag := foldl_flag_single hf (fun x => (toggleNotifyTask (some str) x).2)
    rw [hval] at hflag
    rw [toggleNotification_eq_of_lookup hl (some str) i, hflag, if_pos rfl]
    rw [getOrEmpty, lookupDate_setDate_self hl, Option.getD_some]
    have hFt : (if t.id = i then (toggleNotifyTask (some str) t).1 else t)
        = { t with notifyEnabled := true, notifyTime := some str } := by
      rw [if_pos hti, hval]
    rw [filter_map_single hf (hFne (some str)) (hFid (some str)), hFt]
  · intro he
    have hval := toggleNotifyTask_of_enabled he p
    have hflag := foldl_flag_single hf (fun x => (toggleNotifyTask p x).2)
    rw [hval] at hflag
    have heq1 : toggleNotification p d i s
        = setDate s d (l0.map (fun t => if t.id = i then (toggleNotifyTask p t).1 else t)) := by
      rw [toggleNotification_eq_of_lookup hl p i, hflag, if_pos rfl]
    have hlook1 : lookupDate (toggleNotification p d i s) d
        = some (l0.map (fun t => if t.id = i then (toggleNotifyTask p t).1 else t)) := by
      rw [heq1]
      exact lookupDate_setDate_self hl _
    have hget1 : getOrEmpty (toggleNotification p d i s) d
        = l0.map (fun t => if t.id = i then (toggleNotifyTask p t).1 else t) := by
      rw [getOrEmpty, hlook1, Option.getD_some]
    have hFt : (if t.id = i then (toggleNotifyTask p t).1 else t)
        = { t with notifyEnabled := false } := by
      rw [if_pos hti, hval]
    have hfil1 : (getOrEmpty (toggleNotification p d i s) d).filter
        (fun x => decide (x.id = i)) = [{ t with notifyEnabled := false }] := by
      rw [hget1, filter_map_single hf (hFne p) (hFid p), hFt]
    refine ⟨hfil1, ?_⟩
    intro p2 x htx hx
    rw [hget1] at hfil1
    have ht2 : ({ t with notifyEnabled := false } : Task).id = i := hti
    have htime2 : ({ t with notifyEnabled := false } : Task).notifyTime = some x := htx
    have hval2 := toggleNotifyTask_of_disabled_time
      (t := { t with notifyEnabled := false }) rfl htime2 hx p2
    have hflag2 := foldl_flag_single hfil1 (fun y => (toggleNotifyTask p2 y).2)
    rw [hval2] at hflag2
    have hgoaleq : toggleNotification p2 d i (toggleNotification p d i s)
        = setDate (toggleNotification p d i s) d
            ((l0.map (fun t => if t.id = i then (toggleNotifyTask p t).1 else t)).map
              (fun t => if t.id = i then (toggleNotifyTask p2 t).1 else t)) := by
      rw [toggleNotification_eq_of_lookup hlook1 p2 i, hflag2, if_pos rfl]
    have hlook2 : lookupDate (toggleNotification p2 d i (toggleNotification p d i s)) d
        = some ((l0.map (fun t => if t.id = i then (toggleNotifyTask p t).1 else t)).map
            (fun t => if t.id = i then (toggleNotifyTask p2 t).1 else t)) := by
      rw [hgoaleq]
      exact lookupDate_setDate_self hlook1 _
    rw [getOrEmpty, hlook2, Option.getD_some]
    have hFid2 : ((fun y => if y.id = i then (toggleNotifyTask p2 y).1 else y)
        ({ t with notifyEnabled := false } : Task)).id
        = ({ t with notifyEnabled := false } : Task).id := by
      show (if ({ t with notifyEnabled := false } : Task).id = i
          then (toggleNotifyTask p2 ({ t with notifyEnabled := false } : Task)).1
          else ({ t with notifyEnabled := false } : Task)).id
        = ({ t with notifyEnabled := false } : Task).id
      rw [if_pos ht2]
      exact toggleNotifyTask_fst_id p2 _
    have hFt2 : (if ({ t with notifyEnabled := false } : Task).id = i
          then (toggleNotifyTask p2 ({ t with notifyEnabled := false } : Task)).1
          else ({ t with notifyEnabled := false } : Task)) = t := by
      rw [if_pos ht2, hval2]
      cases t
      simp_all
    rw [filter_map_single hfil1 (hFne p2) hFid2, hFt2]

/-- Closed witness for the toggleNotification theorem: enabling a task
with no stored time while the prompt supplies the malformed "9:00" leaves
the store unchanged. -/
theorem toggleNotification_spec_witness :
    toggleNotification (some "9:00") "2025-04-14" 1
      [("2025-04-14", [⟨1, "a", false, false, none⟩])]
      = [("2025-04-14", [⟨1, "a", false, false, none⟩])] :=
  (toggleNotification_spec
    [("2025-04-14", [⟨1, "a", false, false, none⟩])] "2025-04-14" 1
    ⟨1, "a", false, false, none⟩ (some "9:00") (by decide)).1 rfl rfl
    (by
      intro str h
      injection h with h2
      subst h2
      right
      decide)

/-- C9 counterexample: enabling a task that has no stored time while the
prompt supplies "99:99" — not a valid 24-hour HH:MM time — is not
aborted: the shape regex accepts it, the task is enabled and "99:99" is
persisted as its notifyTime, refuting the claim that the toggle aborts
with the task unchanged whenever no valid time is supplied. -/
theorem toggleNotification_accepts_invalid_time :
    toggleNotification (some "99:99") "2025-04-14" 1
      [("2025-04-14", [⟨1, "a", false, false, none⟩])]
      = [("2025-04-14", [⟨1, "a", false, true, some "99:99"⟩])] := by
  decide

/-! Claim C3. -/

theorem mem_setDate {s : Store} {k : String} {l : List Task} {e : String × List Task}
    (he : e ∈ setDate s k l) : e ∈ s ∨ e = (k, l) := by
  induction s with
  | nil => cases he
  | cons a rest ih =>
      unfold setDate at he
      by_cases hk : a.1 = k
      · rw [if_pos hk] at he
        rcases List.mem_cons.mp he with rfl | hm
        · right
          rfl
        · left
          exact List.mem_cons_of_mem _ hm
      · rw [if_neg hk] at he
        rcases List.mem_cons.mp he with rfl | hm
        · left
          exact List.mem_cons_self _ _
        · rcases ih hm with h | h
          · left
            exact List.mem_cons_of_mem _ h
          · right
            exact h

theorem storeInv_setDate {s : Store} (hs : StoreInv s) {k : String} {l : List Task}
    (hl : l ≠ []) : StoreInv (setDate s k l) := by
  intro e he
  rcases mem_setDate he with h | h
  · exact hs e h
  · rw [h]
    exact hl

theorem storeInv_setDateOrInsert {s : Store} (hs : StoreInv s) {k : String} {l : List Task}
    (hl : l ≠ []) : StoreInv (setDateOrInsert s k l) := by
  unfold setDateOrInsert
  by_cases h : (lookupDate s k).isSome
  · rw [if_pos h]
    exact storeInv_setDate hs hl
  · rw [if_neg h]
    intro e he
    rcases List.mem_append.mp he with hm | hm
    · exact hs e hm
    · rw [List.mem_singleton.mp hm]
      exact hl

theorem storeInv_removeDate {s : Store} (hs : StoreInv s) (k : String) :
    StoreInv (removeDate s k) :=
  fun e he => hs e (List.mem_of_mem_filter he)

theorem map_ne_nil_of_ne_nil {l : List Task} (h : l ≠ []) (f : Task → Task) :
    l.map f ≠ [] := by
  cases l with
  | nil => exact absurd rfl h
  | cons a rest => simp

theorem storeInv_handleAddTask {s : Store} (hs : StoreInv s) (now : Nat) (d text : String) :
    StoreInv (handleAddTask now d text s) := by
  unfold handleAddTask
  by_cases h : jsTrim text ≠ ""
  · simp only [if_pos h]
    exact storeInv_setDateOrInsert hs (by simp)
  · simp only [if_neg h]
    exact hs

theorem storeInv_toggleTaskCompletion {s : Store} (hs : StoreInv s) (d : String) (i : Nat) :
    StoreInv (toggleTaskCompletion d i s) := by
  unfold toggleTaskCompletion
  cases hl : lookupDate s d with
  | none => exact hs
  | some l =>
      dsimp only
      have hlne : l ≠ [] := hs (d, l) (lookupDate_mem hl)
      by_cases hc : l.any (fun t => decide (t.id = i)) = true
      · rw [if_pos hc]
        exact storeInv_setDate hs (map_ne_nil_of_ne_nil hlne _)
      · rw [if_neg hc]
        exact hs

theorem storeInv_saveTaskEdit {s : Store} (hs : StoreInv s) (d : String) (i : Nat)
    (text : String) : StoreInv (saveTaskEdit d i text s) := by
  unfold saveTaskEdit
  by_cases h0 : jsTrim text = ""
  · simp only [if_pos h0]
    exact hs
  · simp only [if_neg h0]
    cases hl : lookupDate s d with
    | none => exact hs
    | some l =>
        dsimp only
        have hlne : l ≠ [] := hs (d, l) (lookupDate_mem hl)
        by_cases hc : l.any (fun t => decide (t.id = i ∧ t.text ≠ jsTrim text)) = true
        · rw [if_pos hc]
          exact storeInv_setDate hs (map_ne_nil_of_ne_nil hlne _)
        · rw [if_neg hc]
          exact hs

theorem storeInv_deleteTask {s : Store} (hs : StoreInv s) (d : String) (i : Nat) :
    StoreInv (deleteTask d i s) := by
  unfold deleteTask
  cases hl : lookupDate s d with
  | none => exact hs
  | some l =>
      dsimp only
      by_cases hc : l.filter (fun t => !(decide (t.id = i))) = []
      · rw [if_pos hc]
        exact storeInv_removeDate hs d
      · rw [if_neg hc]
        exact storeInv_setDate hs hc

theorem storeInv_clearCompletedTasks {s : Store} (hs : StoreInv s) (d : String) :
    StoreInv (clearCompletedTasks d s) := by
  unfold clearCompletedTasks
  cases hl : lookupDate s d with
  | none => exact hs
  | some l =>
      dsimp only
      by_cases hch : (l.filter (fun t => !t.completed)).length < l.length
      · rw [if_pos hch]
        by_cases hc : l.filter (fun t => !t.completed) = []
        · rw [if_pos hc]
          exact storeInv_removeDate hs d
        · rw [if_neg hc]
          exact storeInv_setDate hs hc
      · rw [if_neg hch]
        exact hs

theorem storeInv_toggleNotification {s : Store} (hs : StoreInv s) (p : Option String)
    (d : String) (i : Nat) : StoreInv (toggleNotification p d i s) := by
  unfold toggleNotification
  cases hl : lookupDate s d with
  | none => exact hs
  | some l =>
      dsimp only
      have hlne : l ≠ [] := hs (d, l) (lookupDate_mem hl)
      by_cases hc : l.foldl (fun f t => if t.id = i then (toggleNotifyTask p t).2 else f) false
          = true
      · rw [if_pos hc]
        exact storeInv_setDate hs (map_ne_nil_of_ne_nil hlne _)
      · rw [if_neg hc]
        exact hs

theorem storeInv_handleTimeChange {s : Store} (hs : StoreInv s) (nt d : String) (i : Nat) :
    StoreInv (handleTimeChange nt d i s).1 := by
  unfold handleTimeChange
  by_cases h0 : nt ≠ "" ∧ isHHMM nt = false
  · rw [if_pos h0]
    exact hs
  · rw [if_neg h0]
    cases hl : lookupDate s d with
    | none => exact hs
    | some l =>
        dsimp only
        have hlne : l ≠ [] := hs (d, l) (lookupDate_mem hl)
        by_cases hc : l.any (fun t => decide (t.id = i ∧ t.notifyTime ≠ some nt)) = true
        · rw [if_pos hc]
          exact storeInv_setDate hs (map_ne_nil_of_ne_nil hlne _)
        · rw [if_neg hc]
          exact hs

theorem storeInv_importPdfTask {s : Store} (hs : StoreInv s) (now : Nat)
    (d text : String) : StoreInv (importPdfTask now d text s) := by
  unfold importPdfTask
  dsimp only
  by_cases hc : (getOrEmpty s d).any (fun t => decide (t.text = text)) = true
  · rw [if_pos hc]
    exact hs
  · rw [if_neg hc]
    exact storeInv_setDateOrInsert hs (by simp)

theorem storeInv_markNotificationAsFired {s : Store} (hs : StoreInv s) (d : String)
    (i : Nat) : StoreInv (markNotificationAsFired d i s) := by
  unfold markNotificationAsFired
  cases hl : lookupDate s d with
  | none => exact hs
  | some l =>
      dsimp only
      have hlne : l ≠ [] := hs (d, l) (lookupDate_mem hl)
      by_cases hc : l.any (fun t => decide (t.id = i)) = true
      · rw [if_pos hc]
        exact storeInv_setDate hs (map_ne_nil_of_ne_nil hlne _)
      · rw [if_neg hc]
        exact hs

/-- C3: every store reachable from the empty store through the mutation
operations satisfies the invariant that each present DateKey maps to a
non-empty task list, and the two writes able to empty a date's list
(delete and clear-completed, the clear on a previously non-empty list)
remove the DateKey from the mapping when they do. -/
theorem reachable_storeInv :
    (∀ s, Reachable s → StoreInv s) ∧
    (∀ (s : Store) (d : String) (i : Nat) (l : List Task), lookupDate s d = some l →
      l.filter (fun t => !(decide (t.id = i))) = [] →
      lookupDate (deleteTask d i s) d = none) ∧
    (∀ (s : Store) (d : String) (l : List Task), lookupDate s d = some l → l ≠ [] →
      l.filter (fun t => !t.completed) = [] →
      lookupDate (clearCompletedTasks d s) d = none) := by
  refine ⟨?_, ?_, ?_⟩
  · intro s hr
    induction hr with
    | empty => intro e he; cases he
    | add now d text _ ih => exact storeInv_handleAddTask ih now d text
    | toggle d i _ ih => exact storeInv_toggleTaskCompletion ih d i
    | edit d i text _ ih => exact storeInv_saveTaskEdit ih d i text
    | del d i _ ih => exact storeInv_deleteTask ih d i
    | clear d _ ih => exact storeInv_clearCompletedTasks ih d
    | notify p d i _ ih => exact storeInv_toggleNotification ih p d i
    | time nt d i _ ih => exact storeInv_handleTimeChange ih nt d i
    | imp now d text _ ih => exact storeInv_importPdfTask ih now d text
    | fire d i _ ih => exact storeInv_markNotificationAsFired ih d i
  · intro s d i l hl hemp
    have heq : deleteTask d i s = removeDate s d := by
      unfold deleteTask
      rw [hl]
      dsimp only
      rw [if_pos hemp]
    rw [heq]
    exact lookupDate_removeDate_self s d
  · intro s d l hl hlne hemp
    have hlt : (l.filter (fun t => !t.completed)).length < l.length := by
      rw [hemp]
      exact List.length_pos.mpr hlne
    have heq : clearCompletedTasks d s = removeDate s d := by
      rw [clearCompletedTasks_eq_some hl, if_pos hlt, if_pos hemp]
    rw [heq]
    exact lookupDate_removeDate_self s d

/-- Closed witness for the invariant theorem: deleting the last task of a
date removes the DateKey. -/
theorem reachable_storeInv_witness :
    lookupDate (deleteTask "2025-04-14" 1
      [("2025-04-14", [⟨1, "a", false, false, none⟩])]) "2025-04-14" = none :=
  reachable_storeInv.2.1 [("2025-04-14", [⟨1, "a", false, false, none⟩])]
    "2025-04-14" 1 [⟨1, "a", false, false, none⟩] (by decide) (by decide)

/-! Claim C8: frame lemmas for each mutation operation. -/

theorem lookupDate_handleAddTask_ne {k1 k2 : String} (hne : k2 ≠ k1)
    (now : Nat) (text : String) (s : Store) :
    lookupDate (handleAddTask now k1 text s) k2 = lookupDate s k2 := by
  unfold handleAddTask
  by_cases h : jsTrim text ≠ ""
  · simp only [if_pos h]
    exact lookupDate_setDateOrInsert_ne hne _
  · simp only [if_neg h]

theorem lookupDate_toggleTaskCompletion_ne {k1 k2 : String} (hne : k2 ≠ k1)
    (i : Nat) (s : Store) :
    lookupDate (toggleTaskCompletion k1 i s) k2 = lookupDate s k2 := by
  unfold toggleTaskCompletion
  cases hl : lookupDate s k1 with
  | none => rfl
  | some l =>
      dsimp only
      split
      · exact lookupDate_setDate_ne hne _
      · rfl

theorem lookupDate_saveTaskEdit_ne {k1 k2 : String} (hne : k2 ≠ k1)
    (i : Nat) (text : String) (s : Store) :
    lookupDate (saveTaskEdit k1 i text s) k2 = lookupDate s k2 := by
  unfold saveTaskEdit
  by_cases h0 : jsTrim text = ""
  · simp only [if_pos h0]
  · simp only [if_neg h0]
    cases hl : lookupDate s k1 with
    | none => rfl
    | some l =>
        dsimp only
        split
        · exact lookupDate_setDate_ne hne _
        · rfl

theorem lookupDate_deleteTask_ne {k1 k2 : String} (hne : k2 ≠ k1)
    (i : Nat) (s : Store) :
    lookupDate (deleteTask k1 i s) k2 = lookupDate s k2 := by
  unfold deleteTask
  cases hl : lookupDate s k1 with
  | none => rfl
  | some l =>
      dsimp only
      split
      · exact lookupDate_removeDate_ne hne
      · exact lookupDate_setDate_ne hne _

theorem lookupDate_clearCompletedTasks_ne {k1 k2 : String} (hne : k2 ≠ k1)
    (s : Store) :
    lookupDate (clearCompletedTasks k1 s) k2 = lookupDate s k2 := by
  unfold clearCompletedTasks
  cases hl : lookupDate s k1 with
  | none => rfl
  | some l =>
      dsimp only
      split
      · split
        · exact lookupDate_removeDate_ne hne
        · exact lookupDate_setDate_ne hne _
      · rfl

theorem lookupDate_toggleNotification_ne {k1 k2 : String} (hne : k2 ≠ k1)
    (p : Option String) (i : Nat) (s : Store) :
    lookupDate (toggleNotification p k1 i s) k2 = lookupDate s k2 := by
  unfold toggleNotification
  cases hl : lookupDate s k1 with
  | none => rfl
  | some l =>
      dsimp only
      split
      · exact lookupDate_setDate_ne hne _
      · rfl

theorem lookupDate_handleTimeChange_ne {k1 k2 : String} (hne : k2 ≠ k1)
    (nt : String) (i : Nat) (s : Store) :
    lookupDate (handleTimeChange nt k1 i s).1 k2 = lookupDate s k2 := by
  unfold handleTimeChange
  by_cases h0 : nt ≠ "" ∧ isHHMM nt = false
  · rw [if_pos h0]
  · rw [if_neg h0]
    cases hl : lookupDate s k1 with
    | none => rfl
    | some l =>
        dsimp only
        split
        · exact lookupDate_setDate_ne hne _
        · rfl

/-! Decimal-printing development for the date-key formatter. -/

theorem natDigitsAux_eq_of_le :
    ∀ (n f : Nat), n ≤ f → natDigitsAux f n = natDigitsAux n n := by
  intro n
  induction n using Nat.strong_induction_on with
  | _ n ih =>
      intro f hf
      by_cases h10 : n < 10
      · cases f with
        | zero =>
            have hn : n = 0 := Nat.le_zero.mp hf
            subst hn
            rfl
        | succ f2 =>
            cases n with
            | zero => rfl
            | succ n2 =>
                show (if n2 + 1 < 10 then [digitChar (n2 + 1)]
                    else natDigitsAux f2 ((n2 + 1) / 10) ++ [digitChar ((n2 + 1) % 10)])
                  = (if n2 + 1 < 10 then [digitChar (n2 + 1)]
                    else natDigitsAux n2 ((n2 + 1) / 10) ++ [digitChar ((n2 + 1) % 10)])
                rw [if_pos h10, if_pos h10]
      · obtain ⟨m, rfl⟩ : ∃ m, n = m + 1 := ⟨n - 1, by omega⟩
        cases f with
        | zero => omega
        | succ f2 =>
            show (if m + 1 < 10 then [digitChar (m + 1)]
                else natDigitsAux f2 ((m + 1) / 10) ++ [digitChar ((m + 1) % 10)])
              = (if m + 1 < 10 then [digitChar (m + 1)]
                else natDigitsAux m ((m + 1) / 10) ++ [digitChar ((m + 1) % 10)])
            rw [if_neg h10, if_neg h10]
            have hd : (m + 1) / 10 < m + 1 := Nat.div_lt_self (by omega) (by omega)
            have e1 : natDigitsAux f2 ((m + 1) / 10)
                = natDigitsAux ((m + 1) / 10) ((m + 1) / 10) := ih _ hd _ (by omega)
            have e2 : natDigitsAux m ((m + 1) / 10)
                = natDigitsAux ((m + 1) / 10) ((m + 1) / 10) := ih _ hd _ (by omega)
            rw [e1, e2]

theorem natToDigits_eq (n : Nat) :
    natToDigits n = if n < 10 then [digitChar n]
      else natToDigits (n / 10) ++ [digitChar (n % 10)] := by
  unfold natToDigits
  by_cases h : n < 10
  · rw [if_pos h]
    cases n with
    | zero => rfl
    | succ m =>
        show (if m + 1 < 10 then [digitChar (m + 1)]
            else natDigitsAux m ((m + 1) / 10) ++ [digitChar ((m + 1) % 10)])
          = [digitChar (m + 1)]
        rw [if_pos h]
  · rw [if_neg h]
    obtain ⟨m, rfl⟩ : ∃ m, n = m + 1 := ⟨n - 1, by omega⟩
    show (if m + 1 < 10 then [digitChar (m + 1)]
        else natDigitsAux m ((m + 1) / 10) ++ [digitChar ((m + 1) % 10)])
      = natDigitsAux ((m + 1) / 10) ((m + 1) / 10) ++ [digitChar ((m + 1) % 10)]
    rw [if_neg h]
    have hd : (m + 1) / 10 < m + 1 := Nat.div_lt_self (by omega) (by omega)
    rw [natDigitsAux_eq_of_le _ _ (by omega)]

theorem natToDigits_ne_nil (n : Nat) : natToDigits n ≠ [] := by
  rw [natToDigits_eq]
  by_cases h : n < 10
  · rw [if_pos h]
    simp
  · rw [if_neg h]
    simp

theorem digitChar_inj : ∀ a < 10, ∀ b < 10, digitChar a = digitChar b → a = b := by
  decide

theorem natToDigits_inj : ∀ a b : Nat, natToDigits a = natToDigits b → a = b := by
  intro a
  induction a using Nat.strong_induction_on with
  | _ a ih =>
      intro b h
      rw [natToDigits_eq a, natToDigits_eq b] at h
      by_cases ha : a < 10 <;> by_cases hb : b < 10
      · rw [if_pos ha, if_pos hb] at h
        exact digitChar_inj a ha b hb (List.cons.inj h).1
      · rw [if_pos ha, if_neg hb] at h
        have hlen := congrArg List.length h
        rw [List.length_append] at hlen
        simp only [List.length_singleton] at hlen
        have hne := natToDigits_ne_nil (b / 10)
        have hz : (natToDigits (b / 10)).length = 0 := by omega
        exact absurd (List.eq_nil_of_length_eq_zero hz) hne
      · rw [if_neg ha, if_pos hb] at h
        have hlen := congrArg List.length h
        rw [List.length_append] at hlen
        simp only [List.length_singleton] at hlen
        have hne := natToDigits_ne_nil (a / 10)
        have hz : (natToDigits (a / 10)).length = 0 := by omega
        exact absurd (List.eq_nil_of_length_eq_zero hz) hne
      · rw [if_neg ha, if_neg hb] at h
        obtain ⟨h1, h2⟩ := List.append_inj' h rfl
        have hq : a / 10 = b / 10 :=
          ih (a / 10) (Nat.div_lt_self (by omega) (by omega)) (b / 10) h1
        have hr : a % 10 = b % 10 :=
          digitChar_inj _ (Nat.mod_lt a (by omega)) _ (Nat.mod_lt b (by omega))
            (List.cons.inj h2).1
        omega

theorem natToDigits_length_lt_10 {n : Nat} (h : n < 10) : (natToDigits n).length = 1 := by
  rw [natToDigits_eq, if_pos h]
  rfl

theorem padStart2_data_length {n : Nat} (h : n < 100) :
    (padStart2 (natToString n)).data.length = 2 := by
  show (List.replicate (2 - (natToDigits n).length) '0' ++ natToDigits n).length = 2
  rw [List.length_append, List.length_replicate]
  by_cases h10 : n < 10
  · rw [natToDigits_length_lt_10 h10]
  · have h2 : (natToDigits n).length = 2 := by
      rw [natToDigits_eq, if_neg h10, List.length_append,
        natToDigits_length_lt_10 (show n / 10 < 10 by omega)]
      rfl
    rw [h2]

theorem pad_natToString_data_inj : ∀ a < 32, ∀ b < 32,
    (padStart2 (natToString a)).data = (padStart2 (natToString b)).data → a = b := by
  decide

theorem data_append (a b : String) : (a ++ b).data = a.data ++ b.data := by
  cases a
  cases b
  rfl

theorem formatDate_inj {y1 m1 d1 y2 m2 d2 : Nat}
    (hm1 : m1 < 32) (hd1 : d1 < 32) (hm2 : m2 < 32) (hd2 : d2 < 32)
    (h : formatDate y1 m1 d1 = formatDate y2 m2 d2) :
    y1 = y2 ∧ m1 = m2 ∧ d1 = d2 := by
  have hdata := congrArg String.data h
  unfold formatDate at hdata
  rw [data_append, data_append, data_append, data_append,
    data_append, data_append, data_append, data_append] at hdata
  have hdash : ("-" : String).data = ['-'] := rfl
  have hnts : ∀ n : Nat, (natToString n).data = natToDigits n := fun n => rfl
  rw [hdash, hnts, hnts] at hdata
  rw [List.append_assoc, List.append_assoc, List.append_assoc,
    List.append_assoc, List.append_assoc, List.append_assoc] at hdata
  have hsuf1 : (['-'] ++ ((padStart2 (natToString m1)).data ++
      (['-'] ++ (padStart2 (natToString d1)).data))).length = 6 := by
    rw [List.length_append, List.length_append, List.length_append,
      padStart2_data_length (show m1 < 100 by omega),
      padStart2_data_length (show d1 < 100 by omega)]
    rfl
  have hsuf2 : (['-'] ++ ((padStart2 (natToString m2)).data ++
      (['-'] ++ (padStart2 (natToString d2)).data))).length = 6 := by
    rw [List.length_append, List.length_append, List.length_append,
      padStart2_data_length (show m2 < 100 by omega),
      padStart2_data_length (show d2 < 100 by omega)]
    rfl
  obtain ⟨hy, hrest⟩ := List.append_inj' hdata (hsuf1.trans hsuf2.symm)
  refine ⟨natToDigits_inj _ _ hy, ?_⟩
  simp only [List.singleton_append, List.cons.injEq, true_and] at hrest
  obtain ⟨hm, hrest3⟩ := List.append_inj hrest
    ((padStart2_data_length (show m1 < 100 by omega)).trans
      (padStart2_data_length (show m2 < 100 by omega)).symm)
  refine ⟨pad_natToString_data_inj m1 hm1 m2 hm2 hm, ?_⟩
  exact pad_natToString_data_inj d1 hd1 d2 hd2 (List.cons.inj hrest3).2

/-- C8: date isolation. For valid calendar dates that differ in any
component, the two DateKeys differ (formatDate is injective on valid
dates), and a task added under the first date never changes what is
queried for the second; moreover every mutation operation of the API
modifies at most the single date's list it was invoked with, leaving the
entry of every other DateKey untouched. -/
theorem date_isolation (y1 m1 d1 y2 m2 d2 : Nat)
    (h1 : ValidDate m1 d1) (h2 : ValidDate m2 d2)
    (hne : ¬(y1 = y2 ∧ m1 = m2 ∧ d1 = d2)) :
    (∀ (s : Store) (now : Nat) (text : String),
      getOrEmpty (handleAddTask now (formatDate y1 m1 d1) text s) (formatDate y2 m2 d2)
        = getOrEmpty s (formatDate y2 m2 d2)) ∧
    (∀ (k1 k2 : String), k1 ≠ k2 → ∀ (s : Store) (now i : Nat) (text nt : String)
        (p : Option String),
      lookupDate (handleAddTask now k1 text s) k2 = lookupDate s k2 ∧
      lookupDate (toggleTaskCompletion k1 i s) k2 = lookupDate s k2 ∧
      lookupDate (saveTaskEdit k1 i text s) k2 = lookupDate s k2 ∧
      lookupDate (deleteTask k1 i s) k2 = lookupDate s k2 ∧
      lookupDate (clearCompletedTasks k1 s) k2 = lookupDate s k2 ∧
      lookupDate (toggleNotification p k1 i s) k2 = lookupDate s k2 ∧
      lookupDate (handleTimeChange nt k1 i s).1 k2 = lookupDate s k2) := by
  constructor
  · intro s now text
    have hkey : formatDate y2 m2 d2 ≠ formatDate y1 m1 d1 := by
      intro hc
      obtain ⟨hy, hm, hd⟩ := formatDate_inj
        (by obtain ⟨a, b, c, e⟩ := h2; omega) (by obtain ⟨a, b, c, e⟩ := h2; omega)
        (by obtain ⟨a, b, c, e⟩ := h1; omega) (by obtain ⟨a, b, c, e⟩ := h1; omega) hc
      exact hne ⟨hy.symm, hm.symm, hd.symm⟩
    unfold getOrEmpty
    rw [lookupDate_handleAddTask_ne hkey]
  · intro k1 k2 hk s now i text nt p
    have hk2 : k2 ≠ k1 := Ne.symm hk
    exact ⟨lookupDate_handleAddTask_ne hk2 now text s,
      lookupDate_toggleTaskCompletion_ne hk2 i s,
      lookupDate_saveTaskEdit_ne hk2 i text s,
      lookupDate_deleteTask_ne hk2 i s,
      lookupDate_clearCompletedTasks_ne hk2 s,
      lookupDate_toggleNotification_ne hk2 p i s,
      lookupDate_handleTimeChange_ne hk2 nt i s⟩

/-- Closed witness for the date-isolation theorem at two concrete dates. -/
theorem date_isolation_witness :
    getOrEmpty (handleAddTask 5 (formatDate 2025 4 14) "x"
        [(formatDate 2025 4 15, [⟨1, "a", false, false, none⟩])])
      (formatDate 2025 4 15)
      = getOrEmpty [(formatDate 2025 4 15, [⟨1, "a", false, false, none⟩])]
          (formatDate 2025 4 15) :=
  (date_isolation 2025 4 14 2025 4 15
    (by unfold ValidDate; omega) (by unfold ValidDate; omega) (by decide)).1
    [(formatDate 2025 4 15, [⟨1, "a", false, false, none⟩])] 5 "x"

end TaskManager
